import Mathlib

/-!
Verification of hashi-helper, `config/parse_vault_auth.go`.

A shallow embedding of `processVaultAuths`, `parseAuthConfig` and `parseAuthRole`
together with the parts of the HCL syntax tree (`hcl/ast`) they walk over.

Conventions of the embedding

* A Go call either returns or panics.  A function returning `(T, error)` is a value of
  `Except Abort T`: `.ok v` is `return v, nil`, `.error (.err e)` is `return _, e`, and
  `.error (.fault p)` is a run-time panic (failed type assertion, index out of range, the
  panic of `Token.Value()`).
* A literal is given by what `Token.Value()` does on its token: it returns a Go value
  (`Node.LiteralType`; an `int64` lies in the range of `int64`, a `float64` is finite), or
  it panics (`Node.LiteralNoValue`), as it does on a number outside the range of `int64`.
* `fmt.Errorf(format, args...)` is kept as the pair of its format string and operands
  (`GoError.Errorf`), so that a statement about an error can speak about which operand
  is bound to which verb.
* Slices are lists; the `nil` slice is `[]`.
* The receiver `c *Config` is threaded through explicitly: `processVaultAuths` returns the
  outcome of the call together with the receiver after the call.
-/

namespace HashiHelper

/-! ## Values, tokens and the syntax tree (`hcl/token`, `hcl/ast`) -/

/-- Source position, `token.Pos`. -/
structure Pos where
  Filename : String
  Offset : Nat
  Line : Nat
  Column : Nat
deriving DecidableEq, Repr

/-- A finite `float64`, identified by its IEEE-754 bit pattern: 64 bits whose exponent
field is not all ones.  `strconv.ParseFloat` reports a number outside the range of
`float64` as an error, so `Token.Value()` returns no infinity and no NaN. -/
structure Float64 where
  bits : Nat
  isFinite : bits < 2 ^ 64 ∧ bits / 2 ^ 52 % 2 ^ 11 ≠ 2 ^ 11 - 1
deriving DecidableEq, Repr

/-- Dynamically typed Go values (`interface{}`) that occur in this file: the results of
`Token.Value()` on a literal (`string`, `int64`, `float64`, `bool`) and the operands handed
to `fmt.Errorf` (the former and `token.Pos`).  An `int64` is an integer together with the
fact that it lies between -2^63 and 2^63 - 1. -/
inductive GoValue where
  | str (s : String)
  | int64 (n : Int) (inRange : -9223372036854775808 ≤ n ∧ n ≤ 9223372036854775807)
  | float64 (f : Float64)
  | bool (b : Bool)
  | pos (p : Pos)
deriving DecidableEq, Repr

/-- The Go type name of a dynamic value, which is what the verb `%T` prints. -/
def GoValue.typeName : GoValue → String
  | .str _ => "string"
  | .int64 _ _ => "int64"
  | .float64 _ => "float64"
  | .bool _ => "bool"
  | .pos _ => "token.Pos"

/-- An `*ast.ObjectKey`.  The parser only builds keys from identifier and string tokens, so
`key.Token.Value().(string)` always succeeds; `Name` is that string and `Pos` is
`key.Pos()`. -/
structure ObjectKey where
  Name : String
  Pos : Pos
deriving DecidableEq, Repr

/-- An `*ast.ObjectItem` over nodes of type `N`: the key path `Keys` and the value `Val`. -/
structure ObjectItemOf (N : Type) where
  Keys : List ObjectKey
  Val : N

/-- An `ast.Node` in value position: `*ast.ObjectType` (a block body, `List.Items`),
`*ast.LiteralType`, or `*ast.ListType`.  The token of an `*ast.LiteralType` is given by its
position and by what `Token.Value()` does on it.  `LiteralType` is a token on which
`Token.Value()` returns `Value`.  `LiteralNoValue` is a token on which `Token.Value()`
panics: a NUMBER whose text `strconv.ParseInt` refuses (`99999999999999999999` is outside
`int64`), a FLOAT whose text `strconv.ParseFloat` refuses (`1e999` is outside `float64`), a
STRING whose text does not unquote, a BOOL whose text is neither `true` nor `false`; `Text`
is the text of the token. -/
inductive Node where
  | ObjectType (Items : List (ObjectItemOf Node))
  | LiteralType (Pos : Pos) (Value : GoValue)
  | LiteralNoValue (Pos : Pos) (Text : String)
  | ListType (List : List Node)

/-- An `*ast.ObjectItem`. -/
abbrev ObjectItem := ObjectItemOf Node

/-- An `*ast.ObjectList`. -/
structure ObjectList where
  Items : List ObjectItem

/-! ## Errors and panics -/

/-- Go `error` values.  `Errorf` is `fmt.Errorf(format, args...)`, `UnexpectedKey` is the
error of the schema guard `checkHCLKeys`, and `External` stands for an error value made by
a library (`hcl.DecodeObject`, `mapstructure.WeakDecode`). -/
inductive GoError where
  | Errorf (format : String) (args : List GoValue)
  | UnexpectedKey (key : ObjectKey)
  | External (msg : String)
deriving DecidableEq, Repr

/-- Run-time panics: a failed type assertion, an index out of range, and the panic of
`Token.Value()` on a token that has no value. -/
inductive Panic where
  | typeAssertion
  | indexOutOfRange
  | tokenValue
deriving DecidableEq, Repr

/-- The two ways a call ends without a result: it returns an error, or it panics. -/
inductive Abort where
  | err (e : GoError)
  | fault (p : Panic)
deriving DecidableEq, Repr

/-- The outcome of a call of a function whose only result is `error`. -/
inductive Outcome where
  | nil
  | err (e : GoError)
  | fault (p : Panic)
deriving DecidableEq, Repr

/-! ## Library functions -/

/-- The library functions whose tables and algorithms are outside the repository:
`unicodeFold lo hi` is the general case of `strings.EqualFold` on two different runes
`lo < hi` that are not both ASCII (it walks the `unicode.SimpleFold` orbit of `lo`);
`DecodeObject` is `hcl.DecodeObject` into a fresh `map[string]interface{}` (type `M`);
`WeakDecode` is `mapstructure.WeakDecode` of that map into a zero `Data` field
(type `D`).  An error of the two decoders is given by its message and becomes the error
value `GoError.External`. -/
structure Lib (M D : Type) where
  unicodeFold : Char → Char → Bool
  DecodeObject : Node → Except String M
  WeakDecode : M → Except String D

/-- One step of `strings.EqualFold`: are the runes `sr` and `tr` equal under simple case
folding? -/
def runeEqualFold (unicodeFold : Char → Char → Bool) (sr tr : Char) : Bool :=
  if tr = sr then true
  else
    let lo := if tr < sr then tr else sr
    let hi := if tr < sr then sr else tr
    if hi.toNat < 0x80 then
      decide ('A'.toNat ≤ lo.toNat ∧ lo.toNat ≤ 'Z'.toNat ∧ hi.toNat = lo.toNat + ('a'.toNat - 'A'.toNat))
    else unicodeFold lo hi

/-- The function `strings.EqualFold`, on the runes of the two strings. -/
def EqualFold (unicodeFold : Char → Char → Bool) : List Char → List Char → Bool
  | [], [] => true
  | sr :: s, tr :: t => runeEqualFold unicodeFold sr tr && EqualFold unicodeFold s t
  | _, _ => false

/-- The inner loop of `ObjectList.Filter`: does the key path `itemKeys[:len(keys)]` match
`keys`, each key exactly or up to case folding? -/
def keysMatch (unicodeFold : Char → Char → Bool) : List ObjectKey → List String → Bool
  | _, [] => true
  | [], _ :: _ => true
  | key :: itemKeys, k :: keys =>
    if key.Name ≠ k ∧ ¬ EqualFold unicodeFold key.Name.data k.data then false
    else keysMatch unicodeFold itemKeys keys

/-- The method `(*ast.ObjectList).Filter`: the items whose key path starts with `keys`, with
that part of the path stripped off. -/
def ObjectList.Filter {M D : Type} (lib : Lib M D) (o : ObjectList) (keys : List String) :
    ObjectList :=
  ⟨o.Items.filterMap fun item =>
    if item.Keys.length < keys.length then none
    else if keysMatch lib.unicodeFold (item.Keys.take keys.length) keys then
      some { item with Keys := item.Keys.drop keys.length }
    else none⟩

/-! ## Declarations of package `config` used by the file -/

/-- Modelled from the spec: the type `Environment` is declared outside
`parse_vault_auth.go`; the file only reads its `Name`, a string (spec §3, "a named grouping
context supplied by the caller"). -/
structure Environment where
  Name : String
deriving DecidableEq, Repr

/-- Modelled from the spec: the type `AuthConfig` is declared outside the file; spec §3:
"`Name` (string, mandatory label) + `Data`". -/
structure AuthConfig (D : Type) where
  Name : String
  Data : D

/-- Modelled from the spec: the type `AuthRole` is declared outside the file; spec §3:
identical in shape to `AuthConfig`. -/
structure AuthRole (D : Type) where
  Name : String
  Data : D

/-- Modelled from the spec: the type `Auth` is declared outside the file; its fields are the
ones the composite literal of lines 65-71 and the assignments of lines 80 and 90 set.
`Type_` is the Go field `Type`. -/
structure Auth (D : Type) where
  Name : String
  Type_ : String
  Environment : Environment
  DefaultLeaseTTL : String
  MaxLeaseTTL : String
  Config : List (AuthConfig D)
  Roles : List (AuthRole D)

/-- Modelled from the spec: the receiver type `Config` is declared outside the file; the file
only touches its collection `VaultAuths`. -/
structure Config (D : Type) where
  VaultAuths : List (Auth D)

/-- Modelled from the spec: the method `Add` of the collection `VaultAuths` is declared
outside the file.  Spec §6: the entities are "appended (in document order)" to the
collection. -/
def Config.VaultAuthsAdd {D : Type} (c : Config D) (auth : Auth D) : Config D :=
  { c with VaultAuths := c.VaultAuths ++ [auth] }

/-- The key name of a child item: its first key, `item.Keys[0]`. -/
def keyName (item : ObjectItem) : Option String :=
  item.Keys.head?.map ObjectKey.Name

/-- Modelled from the spec: the schema guard `checkHCLKeys` is declared outside the file.
Spec §4.1: "Checks every key name present in `blockItems` against `allowedKeys`; the first
unmatched key triggers a fatal error ..., carrying the key name (and ideally position)";
spec §9: "checked with a simple membership test". -/
def checkHCLKeys : List ObjectItem → List String → Option GoError
  | [], _ => none
  | item :: items, valid =>
    match item.Keys with
    | [] => checkHCLKeys items valid
    | key :: _ =>
      if key.Name ∈ valid then checkHCLKeys items valid
      else some (.UnexpectedKey key)

/-! ## `parse_vault_auth.go` -/

/-- The expression `node.(*ast.LiteralType).Token.Value()`: the type assertion fails on a
node that is not a literal, and `Token.Value()` panics on a token that has no value. -/
def literalValue : Node → Except Abort GoValue
  | .LiteralType _ v => .ok v
  | .LiteralNoValue _ _ => .error (.fault .tokenValue)
  | _ => .error (.fault .typeAssertion)

/-- The type assertion `v.(string)`. -/
def assertString : GoValue → Except Abort String
  | .str s => .ok s
  | _ => .error (.fault .typeAssertion)

/-- Line 17: `x := authAST.Val.(*ast.ObjectType).List`. -/
def blockBody (authAST : ObjectItem) : Except Abort ObjectList :=
  match authAST.Val with
  | .ObjectType items => .ok ⟨items⟩
  | _ => .error (.fault .typeAssertion)

/-- Line 19: the allowed keys of an auth block. -/
def valid : List String :=
  ["config", "role", "type", "path", "max_lease_ttl", "default_lease_ttl"]

/-- Lines 19-22: the schema guard. -/
def schemaGuard (x : ObjectList) : Except Abort Unit :=
  match checkHCLKeys x.Items valid with
  | some err => .error (.err err)
  | none => .ok ()

/-- Lines 24-28: the name of the auth block.  The operand `authAST.Keys[0].Pos()` of the
error is evaluated before `fmt.Errorf` is called. -/
def authName (authAST : ObjectItem) : Except Abort String :=
  if authAST.Keys.length ≠ 1 then
    match authAST.Keys with
    | [] => .error (.fault .indexOutOfRange)
    | key :: _ => .error (.err (.Errorf "Missing auth name in line %+v" [.pos key.Pos]))
  else
    match authAST.Keys with
    | [] => .error (.fault .indexOutOfRange)
    | key :: _ => .ok key.Name

/-- Lines 30-35: the mandatory `type`. -/
def authType {M D : Type} (lib : Lib M D) (x : ObjectList) (environment : Environment)
    (authName : String) : Except Abort String :=
  let typeAST := x.Filter lib ["type"]
  if typeAST.Items.length ≠ 1 then
    .error (.err (.Errorf "missing auth type in %s -> %s" [.str environment.Name, .str authName]))
  else
    match typeAST.Items with
    | [] => .error (.fault .indexOutOfRange)
    | item :: _ => literalValue item.Val >>= assertString

/-- Lines 37-49: the optional `max_lease_ttl`. -/
def mountMaxLeaseTTL {M D : Type} (lib : Lib M D) (x : ObjectList) (environment : Environment)
    (authName : String) : Except Abort String :=
  let maxTTLAST := x.Filter lib ["max_lease_ttl"]
  if maxTTLAST.Items.length = 1 then
    match maxTTLAST.Items with
    | [] => .error (.fault .indexOutOfRange)
    | item :: _ =>
      match literalValue item.Val with
      | .error a => .error a
      | .ok (.str s) => .ok s
      | .ok t =>
        .error (.err (.Errorf "unexpected type %T for %s -> %s -> max_lease_ttl"
          [.str environment.Name, .str authName, t]))
  else if maxTTLAST.Items.length > 1 then
    .error (.err (.Errorf "You can only specify max_lease_ttl once per mount in %s -> %s"
      [.str environment.Name, .str authName]))
  else .ok ""

/-- Lines 51-63: the optional `default_lease_ttl`. -/
def mountDefaultLeaseTTL {M D : Type} (lib : Lib M D) (x : ObjectList)
    (environment : Environment) (authName : String) : Except Abort String :=
  let defaultTTLAST := x.Filter lib ["default_lease_ttl"]
  if defaultTTLAST.Items.length = 1 then
    match defaultTTLAST.Items with
    | [] => .error (.fault .indexOutOfRange)
    | item :: _ =>
      match literalValue item.Val with
      | .error a => .error a
      | .ok (.str s) => .ok s
      | .ok t =>
        .error (.err (.Errorf "unexpected type %T for %s -> %s -> default_lease_ttl"
          [.str environment.Name, .str authName, t]))
  else if defaultTTLAST.Items.length > 1 then
    .error (.err (.Errorf "You can only specify default_lease_ttl once per mount in %s -> %s"
      [.str environment.Name, .str authName]))
  else .ok ""

/-- Lines 102-120: the loop of `parseAuthConfig`, with `configs` as accumulator. -/
def parseAuthConfigLoop {M D : Type} (lib : Lib M D) :
    List ObjectItem → List (AuthConfig D) → Except Abort (List (AuthConfig D))
  | [], configs => .ok configs
  | authConfigAST :: rest, configs =>
    if authConfigAST.Keys.length < 1 then
      match authConfigAST.Keys with
      | [] => .error (.fault .indexOutOfRange)
      | key :: _ => .error (.err (.Errorf "Missing auth role name in line %+v" [.pos key.Pos]))
    else
      match lib.DecodeObject authConfigAST.Val with
      | .error err => .error (.err (.External err))
      | .ok m =>
        match authConfigAST.Keys with
        | [] => .error (.fault .indexOutOfRange)
        | key :: _ =>
          match lib.WeakDecode m with
          | .error err => .error (.err (.External err))
          | .ok data => parseAuthConfigLoop lib rest (configs ++ [⟨key.Name, data⟩])

/-- Lines 99-123: `parseAuthConfig`. -/
def parseAuthConfig {M D : Type} (lib : Lib M D) (list : ObjectList) :
    Except Abort (List (AuthConfig D)) :=
  parseAuthConfigLoop lib list.Items []

/-- Lines 128-146: the loop of `parseAuthRole`, with `roles` as accumulator. -/
def parseAuthRoleLoop {M D : Type} (lib : Lib M D) :
    List ObjectItem → List (AuthRole D) → Except Abort (List (AuthRole D))
  | [], roles => .ok roles
  | config :: rest, roles =>
    if config.Keys.length < 1 then
      match config.Keys with
      | [] => .error (.fault .indexOutOfRange)
      | key :: _ => .error (.err (.Errorf "Missing auth role name in line %+v" [.pos key.Pos]))
    else
      match lib.DecodeObject config.Val with
      | .error err => .error (.err (.External err))
      | .ok m =>
        match config.Keys with
        | [] => .error (.fault .indexOutOfRange)
        | key :: _ =>
          match lib.WeakDecode m with
          | .error err => .error (.err (.External err))
          | .ok data => parseAuthRoleLoop lib rest (roles ++ [⟨key.Name, data⟩])

/-- Lines 125-149: `parseAuthRole`. -/
def parseAuthRole {M D : Type} (lib : Lib M D) (list : ObjectList) :
    Except Abort (List (AuthRole D)) :=
  parseAuthRoleLoop lib list.Items []

/-- Lines 73-81: the `config` entries of the block; `auth.Config` stays `nil` when there is
none. -/
def authConfig {M D : Type} (lib : Lib M D) (x : ObjectList) :
    Except Abort (List (AuthConfig D)) :=
  let configAST := x.Filter lib ["config"]
  if configAST.Items.length > 0 then parseAuthConfig lib configAST else .ok []

/-- Lines 83-91: the `role` entries of the block; `auth.Roles` stays `nil` when there is
none. -/
def authRoles {M D : Type} (lib : Lib M D) (x : ObjectList) :
    Except Abort (List (AuthRole D)) :=
  let roleAST := x.Filter lib ["role"]
  if roleAST.Items.length > 0 then parseAuthRole lib roleAST else .ok []

/-- Lines 17-91: the body of the loop of `processVaultAuths` up to the call of `Add`: the
`Auth` assembled from one block, an error, or a panic. -/
def authBlock {M D : Type} (lib : Lib M D) (environment : Environment) (authAST : ObjectItem) :
    Except Abort (Auth D) := do
  let x ← blockBody authAST
  schemaGuard x
  let authName ← authName authAST
  let authType ← authType lib x environment authName
  let mountMaxLeaseTTL ← mountMaxLeaseTTL lib x environment authName
  let mountDefaultLeaseTTL ← mountDefaultLeaseTTL lib x environment authName
  let config ← authConfig lib x
  let roles ← authRoles lib x
  pure
    { Name := authName
      Type_ := authType
      Environment := environment
      DefaultLeaseTTL := mountDefaultLeaseTTL
      MaxLeaseTTL := mountMaxLeaseTTL
      Config := config
      Roles := roles }

/-- Lines 16-96: the loop of `processVaultAuths` over `list.Items`. -/
def processVaultAuthsLoop {M D : Type} (lib : Lib M D) (environment : Environment) :
    List ObjectItem → Config D → Outcome × Config D
  | [], c => (.nil, c)
  | authAST :: rest, c =>
    match authBlock lib environment authAST with
    | .error (.err e) => (.err e, c)
    | .error (.fault p) => (.fault p, c)
    | .ok auth => processVaultAuthsLoop lib environment rest (c.VaultAuthsAdd auth)

/-- Lines 11-97: `processVaultAuths`; the result is what the call does and the receiver
after it. -/
def processVaultAuths {M D : Type} (lib : Lib M D) (c : Config D) (list : ObjectList)
    (environment : Environment) : Outcome × Config D :=
  if list.Items.length = 0 then (.nil, c)
  else processVaultAuthsLoop lib environment list.Items c

/-! ## Notions used to state the properties -/

/-- The children of a block body whose key name is `k`, in document order. -/
def entries (k : String) (x : List ObjectItem) : List ObjectItem :=
  x.filter fun item => keyName item = some k

/-- A child item as `Filter` hands it on: the first key is stripped, what is left of the key
path are the labels of the entry. -/
def dropKey (item : ObjectItem) : ObjectItem :=
  { item with Keys := item.Keys.drop 1 }

/-- Every key name of the block body is one of the allowed keys. -/
def AllowedKeys (x : List ObjectItem) : Prop :=
  ∀ item ∈ x, ∀ key ∈ item.Keys.head?, key.Name ∈ valid

instance (x : List ObjectItem) : Decidable (AllowedKeys x) := by
  unfold AllowedKeys
  infer_instance

/-- The kinds of error of spec §7. -/
inductive ErrorKind where
  | UnexpectedKey
  | MissingName
  | MissingField
  | DuplicateKey
  | TypeMismatch
  | DecodeFailure
deriving DecidableEq, Repr

/-- The kind of an error value, read off the message it carries. -/
def GoError.kind : GoError → Option ErrorKind
  | .UnexpectedKey _ => some .UnexpectedKey
  | .External _ => some .DecodeFailure
  | .Errorf format _ =>
    if format = "Missing auth name in line %+v" ∨ format = "Missing auth role name in line %+v" then
      some .MissingName
    else if format = "missing auth type in %s -> %s" then some .MissingField
    else if format = "unexpected type %T for %s -> %s -> max_lease_ttl"
        ∨ format = "unexpected type %T for %s -> %s -> default_lease_ttl" then
      some .TypeMismatch
    else if format = "You can only specify max_lease_ttl once per mount in %s -> %s"
        ∨ format = "You can only specify default_lease_ttl once per mount in %s -> %s" then
      some .DuplicateKey
    else none

/-- The verbs of a format string, in order.  A `%` is followed by flags (`+`, `#`, `-`,
a blank, `0`) and one verb character; `%%` prints a percent sign and takes no operand.  The
first argument says whether a `%` has just been read. -/
def formatVerbs : Bool → List Char → List Char
  | _, [] => []
  | false, ch :: rest =>
    if ch = '%' then formatVerbs true rest else formatVerbs false rest
  | true, ch :: rest =>
    if ch = '+' ∨ ch = '#' ∨ ch = '-' ∨ ch = ' ' ∨ ch = '0' then formatVerbs true rest
    else if ch = '%' then formatVerbs false rest
    else ch :: formatVerbs false rest

/-- The operands of an `Errorf` error, each with the verb it is bound to: `fmt` binds the
operands to the verbs of the format in order. -/
def GoError.operands : GoError → List (Char × GoValue)
  | .Errorf format args => (formatVerbs false format.data).zip args
  | _ => []

/-- The type name that the message of an error prints for its verb `%T`. -/
def GoError.reportedType (e : GoError) : Option String :=
  (e.operands.find? fun o => o.1 = 'T').map fun o => o.2.typeName

/-- A well-formed auth block (spec §3 and §6): a block body under exactly one label, only
allowed keys, exactly one `type` entry with a string literal, each of `max_lease_ttl` and
`default_lease_ttl` absent or given once as a string literal, and every `config` and `role`
entry with a label (after its key) and a body that decodes. -/
def WellFormed {M D : Type} (lib : Lib M D) (authAST : ObjectItem) : Prop :=
  ∃ items label ty p s,
    authAST.Val = .ObjectType items ∧ authAST.Keys = [label] ∧ AllowedKeys items ∧
    entries "type" items = [ty] ∧ ty.Val = .LiteralType p (.str s) ∧
    (entries "max_lease_ttl" items = [] ∨
      ∃ m q t, entries "max_lease_ttl" items = [m] ∧ m.Val = .LiteralType q (.str t)) ∧
    (entries "default_lease_ttl" items = [] ∨
      ∃ d q t, entries "default_lease_ttl" items = [d] ∧ d.Val = .LiteralType q (.str t)) ∧
    (∀ e ∈ entries "config" items, 2 ≤ e.Keys.length ∧
      ∃ m d, lib.DecodeObject e.Val = .ok m ∧ lib.WeakDecode m = .ok d) ∧
    (∀ e ∈ entries "role" items, 2 ≤ e.Keys.length ∧
      ∃ m d, lib.DecodeObject e.Val = .ok m ∧ lib.WeakDecode m = .ok d)

/-- The children of a block body that are not `path` entries, in document order. -/
def withoutPath (x : List ObjectItem) : List ObjectItem :=
  x.filter fun item => keyName item ≠ some "path"

/-- The outcome of the call when the loop body ends without a result. -/
def Abort.outcome : Abort → Outcome
  | .err e => .err e
  | .fault p => .fault p

/-- The record of `parseAuthRole` with the Name and Data of a record of
`parseAuthConfig`. -/
def AuthConfig.asRole {D : Type} (config : AuthConfig D) : AuthRole D :=
  ⟨config.Name, config.Data⟩

/-! ## A library instance and documents for worked examples -/

/-- A library instance for worked examples: `DecodeObject` collects the literal children of
a block body, `WeakDecode` keeps the map as it is, and no two different runes outside ASCII
fold together. -/
def sampleLib : Lib (List (String × GoValue)) (List (String × GoValue)) where
  unicodeFold := fun _ _ => false
  DecodeObject := fun node =>
    match node with
    | .ObjectType items =>
      .ok (items.filterMap fun item =>
        match item.Keys, item.Val with
        | [key], .LiteralType _ v => some (key.Name, v)
        | _, _ => none)
    | _ => .error "not an object"
  WeakDecode := fun m => .ok m

/-- A position on line `line`, column 1. -/
def atLine (line : Nat) : Pos := ⟨"auth.hcl", 0, line, 1⟩

/-- The child `name = value` of a block body, a literal on line `line`. -/
def attr (name : String) (value : GoValue) (line : Nat) : ObjectItem :=
  ⟨[⟨name, atLine line⟩], .LiteralType (atLine line) value⟩

/-- The child `name = text` of a block body whose literal has no value: `Token.Value()`
panics on `text`. -/
def attrNoValue (name text : String) (line : Nat) : ObjectItem :=
  ⟨[⟨name, atLine line⟩], .LiteralNoValue (atLine line) text⟩

/-- The item of a block with the given labels and body. -/
def block (labels : List String) (body : List ObjectItem) (line : Nat) : ObjectItem :=
  ⟨labels.map fun l => ⟨l, atLine line⟩, .ObjectType body⟩

/-- The child `kind "label" { body }` of a block body. -/
def section_ (kind label : String) (body : List ObjectItem) (line : Nat) : ObjectItem :=
  ⟨[⟨kind, atLine line⟩, ⟨label, atLine line⟩], .ObjectType body⟩

/-- The environment of the worked examples. -/
def production : Environment := ⟨"production"⟩

/-! ## Lemmas on the library functions and the schema guard -/

/-- On the allowed keys, case folding identifies no two different keys. -/
theorem equalFold_valid (uf : Char → Char → Bool) (a b : String) (ha : a ∈ valid)
    (hb : b ∈ valid) (h : EqualFold uf a.data b.data = true) : a = b := by
  simp only [valid, List.mem_cons, List.mem_singleton, List.not_mem_nil, or_false] at ha hb
  rcases ha with rfl | rfl | rfl | rfl | rfl | rfl <;>
  rcases hb with rfl | rfl | rfl | rfl | rfl | rfl <;>
  first
  | rfl
  | (exfalso; revert h; simp [EqualFold, runeEqualFold])

/-- The tail of a body with allowed keys has allowed keys. -/
theorem allowedKeys_tail {item : ObjectItem} {rest : List ObjectItem}
    (h : AllowedKeys (item :: rest)) : AllowedKeys rest :=
  fun it hit key hkey => h it (List.mem_cons_of_mem _ hit) key hkey

/-- In a body with allowed keys, `Filter` with one allowed key selects the entries with
exactly that key name and strips the key. -/
theorem filter_items {M D : Type} (lib : Lib M D) (k : String) (hk : k ∈ valid) :
    ∀ x : List ObjectItem, AllowedKeys x →
      (ObjectList.Filter lib ⟨x⟩ [k]).Items = (entries k x).map dropKey := by
  intro x
  induction x with
  | nil => intro _; rfl
  | cons item rest ih =>
    intro h
    have ih' := ih (allowedKeys_tail h)
    simp only [ObjectList.Filter] at ih' ⊢
    rcases item with ⟨keys, val⟩
    cases keys with
    | nil =>
      simp [entries, keyName, List.filterMap_cons, List.filter_cons] at ih' ⊢
      exact ih'
    | cons key ks =>
      have hkey : key.Name ∈ valid := h _ (List.mem_cons_self _ _) key (by simp)
      by_cases hname : key.Name = k
      · simp [entries, keyName, List.filterMap_cons, List.filter_cons, keysMatch, hname,
          dropKey] at ih' ⊢
        exact ih'
      · have hfold : EqualFold lib.unicodeFold key.Name.data k.data = false := by
          cases hf : EqualFold lib.unicodeFold key.Name.data k.data with
          | false => rfl
          | true => exact absurd (equalFold_valid _ _ _ hkey hk hf) hname
        simp [entries, keyName, List.filterMap_cons, List.filter_cons, keysMatch, hname,
          hfold] at ih' ⊢
        exact ih'

/-- The schema guard accepts a body with allowed keys. -/
theorem checkHCLKeys_allowed :
    ∀ x : List ObjectItem, AllowedKeys x → checkHCLKeys x valid = none := by
  intro x
  induction x with
  | nil => intro _; rfl
  | cons item rest ih =>
    intro h
    rcases item with ⟨keys, val⟩
    cases keys with
    | nil => simpa [checkHCLKeys] using ih (allowedKeys_tail h)
    | cons key ks =>
      have hkey : key.Name ∈ valid := h _ (List.mem_cons_self _ _) key (by simp)
      simp only [checkHCLKeys, hkey, if_true]
      exact ih (allowedKeys_tail h)

/-- The schema guard rejects a body that has a key name outside the allowed keys, with the
key of one of its children. -/
theorem checkHCLKeys_rejected :
    ∀ x : List ObjectItem, ¬ AllowedKeys x →
      ∃ key, key.Name ∉ valid ∧ (∃ item ∈ x, item.Keys.head? = some key) ∧
        checkHCLKeys x valid = some (.UnexpectedKey key) := by
  intro x
  induction x with
  | nil => intro h; exact absurd (fun _ hit => by cases hit) h
  | cons item rest ih =>
    intro h
    have step : ¬ AllowedKeys rest →
        ∃ key, key.Name ∉ valid ∧ (∃ it ∈ item :: rest, it.Keys.head? = some key) ∧
          checkHCLKeys rest valid = some (.UnexpectedKey key) := by
      intro hrest
      obtain ⟨key, hkey, ⟨it, hit, hhead⟩, hres⟩ := ih hrest
      exact ⟨key, hkey, ⟨it, List.mem_cons_of_mem _ hit, hhead⟩, hres⟩
    rcases item with ⟨keys, val⟩
    cases keys with
    | nil =>
      have hrest : ¬ AllowedKeys rest := by
        intro hr
        apply h
        intro it hit key hkey
        rcases List.mem_cons.mp hit with rfl | hit
        · simp at hkey
        · exact hr it hit key hkey
      simpa [checkHCLKeys] using step hrest
    | cons key ks =>
      by_cases hkey : key.Name ∈ valid
      · have hrest : ¬ AllowedKeys rest := by
          intro hr
          apply h
          intro it hit key' hkey'
          rcases List.mem_cons.mp hit with rfl | hit
          · simp at hkey'
            rw [← hkey']
            exact hkey
          · exact hr it hit key' hkey'
        simpa [checkHCLKeys, hkey] using step hrest
      · exact ⟨key, hkey, ⟨_, List.mem_cons_self _ _, rfl⟩, by simp [checkHCLKeys, hkey]⟩

/-! ## Lemmas on the document loop -/

/-- The early return for the empty document agrees with the loop. -/
theorem processVaultAuths_eq_loop {M D : Type} (lib : Lib M D) (c : Config D)
    (list : ObjectList) (environment : Environment) :
    processVaultAuths lib c list environment =
      processVaultAuthsLoop lib environment list.Items c := by
  unfold processVaultAuths
  split
  · rename_i h
    rw [List.length_eq_zero.mp h]
    rfl
  · rfl

/-- The loop over `pre ++ rest` continues with `rest` when the blocks of `pre` are all
processed. -/
theorem loop_append {M D : Type} (lib : Lib M D) (environment : Environment)
    (rest : List ObjectItem) :
    ∀ (pre : List ObjectItem) (c c' : Config D),
      processVaultAuthsLoop lib environment pre c = (.nil, c') →
      processVaultAuthsLoop lib environment (pre ++ rest) c =
        processVaultAuthsLoop lib environment rest c' := by
  intro pre
  induction pre with
  | nil =>
    intro c c' h
    simp only [processVaultAuthsLoop, Prod.mk.injEq, true_and] at h
    rw [List.nil_append, h]
  | cons blk pre ih =>
    intro c c' h
    simp only [List.cons_append, processVaultAuthsLoop] at h ⊢
    cases hb : authBlock lib environment blk with
    | error a =>
      rw [hb] at h
      cases a <;> simp at h
    | ok auth =>
      rw [hb] at h
      exact ih _ _ h

/-- A block that ends in an error ends the call with that error; the collection is the one
the blocks before it have left. -/
theorem processVaultAuths_err {M D : Type} (lib : Lib M D) (environment : Environment)
    (c c' : Config D) (pre post : List ObjectItem) (authAST : ObjectItem) (e : GoError)
    (hpre : processVaultAuths lib c ⟨pre⟩ environment = (.nil, c'))
    (hblock : authBlock lib environment authAST = .error (.err e)) :
    processVaultAuths lib c ⟨pre ++ authAST :: post⟩ environment = (.err e, c') := by
  rw [processVaultAuths_eq_loop] at hpre ⊢
  rw [loop_append lib environment _ pre c c' hpre]
  simp [processVaultAuthsLoop, hblock]

/-- A block that panics ends the call with that panic. -/
theorem processVaultAuths_fault {M D : Type} (lib : Lib M D) (environment : Environment)
    (c c' : Config D) (pre post : List ObjectItem) (authAST : ObjectItem) (p : Panic)
    (hpre : processVaultAuths lib c ⟨pre⟩ environment = (.nil, c'))
    (hblock : authBlock lib environment authAST = .error (.fault p)) :
    processVaultAuths lib c ⟨pre ++ authAST :: post⟩ environment = (.fault p, c') := by
  rw [processVaultAuths_eq_loop] at hpre ⊢
  rw [loop_append lib environment _ pre c c' hpre]
  simp [processVaultAuthsLoop, hblock]

/-- A block that is assembled is added to the collection, and the call goes on with the
blocks after it. -/
theorem processVaultAuths_ok {M D : Type} (lib : Lib M D) (environment : Environment)
    (c c' : Config D) (pre post : List ObjectItem) (authAST : ObjectItem) (auth : Auth D)
    (hpre : processVaultAuths lib c ⟨pre⟩ environment = (.nil, c'))
    (hblock : authBlock lib environment authAST = .ok auth) :
    processVaultAuths lib c ⟨pre ++ authAST :: post⟩ environment =
      processVaultAuths lib (c'.VaultAuthsAdd auth) ⟨post⟩ environment := by
  rw [processVaultAuths_eq_loop] at hpre
  rw [processVaultAuths_eq_loop, processVaultAuths_eq_loop]
  rw [loop_append lib environment _ pre c c' hpre]
  simp [processVaultAuthsLoop, hblock]

/-! ## Lemmas on the steps of one block -/

/-- Line 17 on a block whose value is a block body. -/
theorem blockBody_object (authAST : ObjectItem) (items : List ObjectItem)
    (hval : authAST.Val = .ObjectType items) : blockBody authAST = .ok ⟨items⟩ := by
  simp [blockBody, hval]

/-- The schema guard lets a body with allowed keys pass. -/
theorem schemaGuard_allowed (items : List ObjectItem) (hkeys : AllowedKeys items) :
    schemaGuard ⟨items⟩ = .ok () := by
  simp [schemaGuard, checkHCLKeys_allowed items hkeys]

/-- The name of a block with exactly one label is that label. -/
theorem authName_one (authAST : ObjectItem) (label : ObjectKey)
    (hlabel : authAST.Keys = [label]) : authName authAST = .ok label.Name := by
  simp [authName, hlabel]

/-- One `type` entry with a string literal gives the type. -/
theorem authType_string {M D : Type} (lib : Lib M D) (environment : Environment)
    (name : String) (items : List ObjectItem) (ty : ObjectItem) (p : Pos) (s : String)
    (hkeys : AllowedKeys items) (htype : entries "type" items = [ty])
    (hty : ty.Val = .LiteralType p (.str s)) :
    authType lib ⟨items⟩ environment name = .ok s := by
  simp [authType, filter_items lib _ (by decide : "type" ∈ valid) items hkeys, htype, dropKey,
    hty, literalValue, assertString, bind, Except.bind]

/-- Any number of `type` entries other than one gives the missing-type error. -/
theorem authType_missing {M D : Type} (lib : Lib M D) (environment : Environment)
    (name : String) (items : List ObjectItem) (hkeys : AllowedKeys items)
    (htype : (entries "type" items).length ≠ 1) :
    authType lib ⟨items⟩ environment name =
      .error (.err (.Errorf "missing auth type in %s -> %s"
        [.str environment.Name, .str name])) := by
  simp [authType, filter_items lib _ (by decide : "type" ∈ valid) items hkeys, htype]

/-- No `max_lease_ttl` entry leaves the empty string. -/
theorem mountMaxLeaseTTL_absent {M D : Type} (lib : Lib M D) (environment : Environment)
    (name : String) (items : List ObjectItem) (hkeys : AllowedKeys items)
    (hmax : entries "max_lease_ttl" items = []) :
    mountMaxLeaseTTL lib ⟨items⟩ environment name = .ok "" := by
  simp [mountMaxLeaseTTL, filter_items lib _ (by decide : "max_lease_ttl" ∈ valid) items hkeys,
    hmax]

/-- One `max_lease_ttl` entry with a string literal gives that string. -/
theorem mountMaxLeaseTTL_string {M D : Type} (lib : Lib M D) (environment : Environment)
    (name : String) (items : List ObjectItem) (m : ObjectItem) (p : Pos) (s : String)
    (hkeys : AllowedKeys items) (hmax : entries "max_lease_ttl" items = [m])
    (hm : m.Val = .LiteralType p (.str s)) :
    mountMaxLeaseTTL lib ⟨items⟩ environment name = .ok s := by
  simp [mountMaxLeaseTTL, filter_items lib _ (by decide : "max_lease_ttl" ∈ valid) items hkeys,
    hmax, dropKey, hm, literalValue]

/-- One `max_lease_ttl` entry with a literal that is not a string gives the error of the
`default` case of the type switch. -/
theorem mountMaxLeaseTTL_other {M D : Type} (lib : Lib M D) (environment : Environment)
    (name : String) (items : List ObjectItem) (m : ObjectItem) (p : Pos) (v : GoValue)
    (hkeys : AllowedKeys items) (hmax : entries "max_lease_ttl" items = [m])
    (hm : m.Val = .LiteralType p v) (hv : ∀ s, v ≠ .str s) :
    mountMaxLeaseTTL lib ⟨items⟩ environment name =
      .error (.err (.Errorf "unexpected type %T for %s -> %s -> max_lease_ttl"
        [.str environment.Name, .str name, v])) := by
  cases v with
  | str s => exact absurd rfl (hv s)
  | int64 _ _ | float64 _ | bool _ | pos _ =>
    simp [mountMaxLeaseTTL, filter_items lib _ (by decide : "max_lease_ttl" ∈ valid) items
      hkeys, hmax, dropKey, hm, literalValue]

/-- Two or more `max_lease_ttl` entries give the once-per-mount error. -/
theorem mountMaxLeaseTTL_twice {M D : Type} (lib : Lib M D) (environment : Environment)
    (name : String) (items : List ObjectItem) (hkeys : AllowedKeys items)
    (hmax : 2 ≤ (entries "max_lease_ttl" items).length) :
    mountMaxLeaseTTL lib ⟨items⟩ environment name =
      .error (.err (.Errorf "You can only specify max_lease_ttl once per mount in %s -> %s"
        [.str environment.Name, .str name])) := by
  have h1 : (entries "max_lease_ttl" items).length ≠ 1 := by omega
  have h2 : 1 < (entries "max_lease_ttl" items).length := by omega
  simp [mountMaxLeaseTTL, filter_items lib _ (by decide : "max_lease_ttl" ∈ valid) items hkeys,
    h1, h2]

/-- No `default_lease_ttl` entry leaves the empty string. -/
theorem mountDefaultLeaseTTL_absent {M D : Type} (lib : Lib M D) (environment : Environment)
    (name : String) (items : List ObjectItem) (hkeys : AllowedKeys items)
    (hdefault : entries "default_lease_ttl" items = []) :
    mountDefaultLeaseTTL lib ⟨items⟩ environment name = .ok "" := by
  simp [mountDefaultLeaseTTL,
    filter_items lib _ (by decide : "default_lease_ttl" ∈ valid) items hkeys, hdefault]

/-- One `default_lease_ttl` entry with a string literal gives that string. -/
theorem mountDefaultLeaseTTL_string {M D : Type} (lib : Lib M D) (environment : Environment)
    (name : String) (items : List ObjectItem) (d : ObjectItem) (p : Pos) (s : String)
    (hkeys : AllowedKeys items) (hdefault : entries "default_lease_ttl" items = [d])
    (hd : d.Val = .LiteralType p (.str s)) :
    mountDefaultLeaseTTL lib ⟨items⟩ environment name = .ok s := by
  simp [mountDefaultLeaseTTL,
    filter_items lib _ (by decide : "default_lease_ttl" ∈ valid) items hkeys, hdefault, dropKey,
    hd, literalValue]

/-- One `default_lease_ttl` entry with a literal that is not a string gives the error of the
`default` case of the type switch. -/
theorem mountDefaultLeaseTTL_other {M D : Type} (lib : Lib M D) (environment : Environment)
    (name : String) (items : List ObjectItem) (d : ObjectItem) (p : Pos) (v : GoValue)
    (hkeys : AllowedKeys items) (hdefault : entries "default_lease_ttl" items = [d])
    (hd : d.Val = .LiteralType p v) (hv : ∀ s, v ≠ .str s) :
    mountDefaultLeaseTTL lib ⟨items⟩ environment name =
      .error (.err (.Errorf "unexpected type %T for %s -> %s -> default_lease_ttl"
        [.str environment.Name, .str name, v])) := by
  cases v with
  | str s => exact absurd rfl (hv s)
  | int64 _ _ | float64 _ | bool _ | pos _ =>
    simp [mountDefaultLeaseTTL,
      filter_items lib _ (by decide : "default_lease_ttl" ∈ valid) items hkeys, hdefault,
      dropKey, hd, literalValue]

/-- Two or more `default_lease_ttl` entries give the once-per-mount error. -/
theorem mountDefaultLeaseTTL_twice {M D : Type} (lib : Lib M D) (environment : Environment)
    (name : String) (items : List ObjectItem) (hkeys : AllowedKeys items)
    (hdefault : 2 ≤ (entries "default_lease_ttl" items).length) :
    mountDefaultLeaseTTL lib ⟨items⟩ environment name =
      .error (.err (.Errorf "You can only specify default_lease_ttl once per mount in %s -> %s"
        [.str environment.Name, .str name])) := by
  have h1 : (entries "default_lease_ttl" items).length ≠ 1 := by omega
  have h2 : 1 < (entries "default_lease_ttl" items).length := by omega
  simp [mountDefaultLeaseTTL,
    filter_items lib _ (by decide : "default_lease_ttl" ∈ valid) items hkeys, h1, h2]

/-- The `config` step runs the loop of `parseAuthConfig` over the `config` entries. -/
theorem authConfig_entries {M D : Type} (lib : Lib M D) (items : List ObjectItem)
    (hkeys : AllowedKeys items) :
    authConfig lib ⟨items⟩ =
      parseAuthConfigLoop lib ((entries "config" items).map dropKey) [] := by
  simp only [authConfig, parseAuthConfig,
    filter_items lib _ (by decide : "config" ∈ valid) items hkeys]
  cases entries "config" items with
  | nil => rfl
  | cons e es => simp

/-- The `role` step runs the loop of `parseAuthRole` over the `role` entries. -/
theorem authRoles_entries {M D : Type} (lib : Lib M D) (items : List ObjectItem)
    (hkeys : AllowedKeys items) :
    authRoles lib ⟨items⟩ =
      parseAuthRoleLoop lib ((entries "role" items).map dropKey) [] := by
  simp only [authRoles, parseAuthRole,
    filter_items lib _ (by decide : "role" ∈ valid) items hkeys]
  cases entries "role" items with
  | nil => rfl
  | cons e es => simp

/-! ## The properties of `processVaultAuths`: one block -/

/-- C1: a document of one auth block with exactly one label, only allowed keys, exactly one
`type` entry whose value is a string literal, and no `max_lease_ttl`, `default_lease_ttl`,
`config` or `role` entry makes `processVaultAuths` return no error and add exactly one Auth:
its Name is the label, its Type the `type` string, its Environment the environment passed
in, and both TTL fields are the empty string. -/
theorem processVaultAuths_minimal_block {M D : Type} (lib : Lib M D) (c : Config D)
    (environment : Environment) (authAST : ObjectItem) (items : List ObjectItem)
    (label : ObjectKey) (ty : ObjectItem) (p : Pos) (s : String)
    (hval : authAST.Val = .ObjectType items) (hlabel : authAST.Keys = [label])
    (hkeys : AllowedKeys items)
    (htype : entries "type" items = [ty]) (hty : ty.Val = .LiteralType p (.str s))
    (hmax : entries "max_lease_ttl" items = [])
    (hdefault : entries "default_lease_ttl" items = [])
    (hconfig : entries "config" items = [])
    (hrole : entries "role" items = []) :
    processVaultAuths lib c ⟨[authAST]⟩ environment =
      (.nil, ⟨c.VaultAuths ++
        [{ Name := label.Name, Type_ := s, Environment := environment,
           DefaultLeaseTTL := "", MaxLeaseTTL := "", Config := [], Roles := [] }]⟩) := by
  have hb : authBlock lib environment authAST = .ok
      { Name := label.Name, Type_ := s, Environment := environment,
        DefaultLeaseTTL := "", MaxLeaseTTL := "", Config := [], Roles := [] } := by
    simp [authBlock, blockBody_object authAST items hval, schemaGuard_allowed items hkeys,
      authName_one authAST label hlabel,
      authType_string lib environment label.Name items ty p s hkeys htype hty,
      mountMaxLeaseTTL_absent lib environment label.Name items hkeys hmax,
      mountDefaultLeaseTTL_absent lib environment label.Name items hkeys hdefault,
      authConfig_entries lib items hkeys, authRoles_entries lib items hkeys, hconfig, hrole,
      parseAuthConfigLoop, parseAuthRoleLoop, bind, Except.bind, pure, Except.pure]
  have h := processVaultAuths_ok lib environment c c [] [] authAST _ rfl hb
  simpa [processVaultAuths, processVaultAuthsLoop, Config.VaultAuthsAdd] using h

/-- C1, at the document `auth "approle" { type = "approle"  path = "approle/" }` and an
empty collection. -/
theorem processVaultAuths_minimal_block_witness :
    processVaultAuths sampleLib ⟨[]⟩
        ⟨[block ["approle"]
            [attr "type" (.str "approle") 2, attr "path" (.str "approle/") 3] 1]⟩ production =
      (.nil, ⟨[{ Name := "approle", Type_ := "approle", Environment := production,
                 DefaultLeaseTTL := "", MaxLeaseTTL := "", Config := [], Roles := [] }]⟩) :=
  processVaultAuths_minimal_block sampleLib ⟨[]⟩ production
    (block ["approle"] [attr "type" (.str "approle") 2, attr "path" (.str "approle/") 3] 1)
    [attr "type" (.str "approle") 2, attr "path" (.str "approle/") 3]
    ⟨"approle", atLine 1⟩ (attr "type" (.str "approle") 2) (atLine 2) "approle"
    rfl rfl (by decide) rfl rfl rfl rfl rfl rfl

/-- C2: an auth block with a child key outside the allowed keys makes `processVaultAuths`
return the error of the schema guard for such a key, and nothing is added for the block: the
collection is the one the blocks before it have left. -/
theorem processVaultAuths_unexpected_key {M D : Type} (lib : Lib M D) (c c' : Config D)
    (environment : Environment) (pre post : List ObjectItem) (authAST : ObjectItem)
    (items : List ObjectItem)
    (hval : authAST.Val = .ObjectType items)
    (hbad : ∃ item ∈ items, ∃ key ∈ item.Keys.head?, key.Name ∉ valid)
    (hpre : processVaultAuths lib c ⟨pre⟩ environment = (.nil, c')) :
    ∃ key, key.Name ∉ valid ∧ (∃ item ∈ items, item.Keys.head? = some key) ∧
      processVaultAuths lib c ⟨pre ++ authAST :: post⟩ environment =
        (.err (.UnexpectedKey key), c') := by
  have hnot : ¬ AllowedKeys items := by
    intro h
    obtain ⟨item, hitem, key, hkey, hout⟩ := hbad
    exact hout (h item hitem key hkey)
  obtain ⟨key, hout, hchild, hguard⟩ := checkHCLKeys_rejected items hnot
  refine ⟨key, hout, hchild, ?_⟩
  apply processVaultAuths_err lib environment c c' pre post authAST _ hpre
  simp [authBlock, blockBody_object authAST items hval, schemaGuard, hguard, bind, Except.bind]

/-- C2, at the document `auth "a" { type = "x" }  auth "b" { type = "x"  bogus = 1 }`: the
Auth of the first block stays, nothing is added for the second. -/
theorem processVaultAuths_unexpected_key_witness :
    ∃ key, key.Name ∉ valid ∧
      (∃ item ∈ [attr "type" (.str "x") 4, attr "bogus" (.int64 1 (by decide)) 5],
        item.Keys.head? = some key) ∧
      processVaultAuths sampleLib ⟨[]⟩
          ⟨[block ["a"] [attr "type" (.str "x") 2] 1] ++
            block ["b"] [attr "type" (.str "x") 4, attr "bogus" (.int64 1 (by decide)) 5] 3 :: []⟩
          production =
        (.err (.UnexpectedKey key),
          ⟨[{ Name := "a", Type_ := "x", Environment := production,
              DefaultLeaseTTL := "", MaxLeaseTTL := "", Config := [], Roles := [] }]⟩) :=
  processVaultAuths_unexpected_key sampleLib ⟨[]⟩ _ production
    [block ["a"] [attr "type" (.str "x") 2] 1] []
    (block ["b"] [attr "type" (.str "x") 4, attr "bogus" (.int64 1 (by decide)) 5] 3)
    [attr "type" (.str "x") 4, attr "bogus" (.int64 1 (by decide)) 5]
    rfl
    ⟨attr "bogus" (.int64 1 (by decide)) 5, by simp, ⟨"bogus", atLine 5⟩, rfl, by decide⟩
    rfl

/-- C3, at the failing input `auth { type = "approle" }` (no label): the call panics with an
index out of range, on the operand `authAST.Keys[0].Pos()` of the error it is about to
build. -/
theorem processVaultAuths_no_label_panics :
    processVaultAuths sampleLib ⟨[]⟩ ⟨[block [] [attr "type" (.str "approle") 2] 1]⟩
      production = (.fault .indexOutOfRange, ⟨[]⟩) := by
  rfl

/-- C4: an auth block with two or more labels and only allowed child keys makes
`processVaultAuths` return the error "Missing auth name in line ..." with the position of
the first label, and nothing is added for the block. -/
theorem processVaultAuths_many_labels {M D : Type} (lib : Lib M D) (c c' : Config D)
    (environment : Environment) (pre post : List ObjectItem) (authAST : ObjectItem)
    (items : List ObjectItem)
    (hval : authAST.Val = .ObjectType items) (hkeys : AllowedKeys items)
    (hlabels : 2 ≤ authAST.Keys.length)
    (hpre : processVaultAuths lib c ⟨pre⟩ environment = (.nil, c')) :
    ∃ key rest, authAST.Keys = key :: rest ∧
      processVaultAuths lib c ⟨pre ++ authAST :: post⟩ environment =
        (.err (.Errorf "Missing auth name in line %+v" [.pos key.Pos]), c') := by
  cases hk : authAST.Keys with
  | nil => simp [hk] at hlabels
  | cons key rest =>
    refine ⟨key, rest, rfl, ?_⟩
    apply processVaultAuths_err lib environment c c' pre post authAST _ hpre
    have hne : rest ≠ [] := by
      intro h
      simp [hk, h] at hlabels
    simp [authBlock, blockBody_object authAST items hval, schemaGuard_allowed items hkeys,
      authName, hk, hne, bind, Except.bind]

/-- C4, at the document `auth "a" "b" { type = "x" }`. -/
theorem processVaultAuths_many_labels_witness :
    ∃ key rest, (block ["a", "b"] [attr "type" (.str "x") 2] 1).Keys = key :: rest ∧
      processVaultAuths sampleLib ⟨[]⟩
          ⟨[] ++ block ["a", "b"] [attr "type" (.str "x") 2] 1 :: []⟩ production =
        (.err (.Errorf "Missing auth name in line %+v" [.pos key.Pos]), ⟨[]⟩) :=
  processVaultAuths_many_labels sampleLib ⟨[]⟩ ⟨[]⟩ production [] []
    (block ["a", "b"] [attr "type" (.str "x") 2] 1) [attr "type" (.str "x") 2]
    rfl (by decide) (by decide) rfl

/-- C5: an auth block with exactly one label and only allowed child keys whose number of
`type` entries is not one (none, or two or more) makes `processVaultAuths` return the error
"missing auth type in ..." with the name of the environment and the name of the auth, and
nothing is added for the block. -/
theorem processVaultAuths_type_count {M D : Type} (lib : Lib M D) (c c' : Config D)
    (environment : Environment) (pre post : List ObjectItem) (authAST : ObjectItem)
    (items : List ObjectItem) (label : ObjectKey)
    (hval : authAST.Val = .ObjectType items) (hlabel : authAST.Keys = [label])
    (hkeys : AllowedKeys items)
    (htype : (entries "type" items).length ≠ 1)
    (hpre : processVaultAuths lib c ⟨pre⟩ environment = (.nil, c')) :
    processVaultAuths lib c ⟨pre ++ authAST :: post⟩ environment =
      (.err (.Errorf "missing auth type in %s -> %s"
        [.str environment.Name, .str label.Name]), c') := by
  apply processVaultAuths_err lib environment c c' pre post authAST _ hpre
  simp [authBlock, blockBody_object authAST items hval, schemaGuard_allowed items hkeys,
    authName_one authAST label hlabel,
    authType_missing lib environment label.Name items hkeys htype, bind, Except.bind]

/-- C5, at the document `auth "a" { type = "x"  type = "y" }` (two `type` entries). -/
theorem processVaultAuths_type_count_witness :
    processVaultAuths sampleLib ⟨[]⟩
        ⟨[] ++ block ["a"] [attr "type" (.str "x") 2, attr "type" (.str "y") 3] 1 :: []⟩
        production =
      (.err (.Errorf "missing auth type in %s -> %s" [.str "production", .str "a"]), ⟨[]⟩) :=
  processVaultAuths_type_count sampleLib ⟨[]⟩ ⟨[]⟩ production [] []
    (block ["a"] [attr "type" (.str "x") 2, attr "type" (.str "y") 3] 1)
    [attr "type" (.str "x") 2, attr "type" (.str "y") 3] ⟨"a", atLine 1⟩
    rfl rfl (by decide) (by decide) rfl

/-! ## Lemmas on `parseAuthConfig` and `parseAuthRole` -/

/-- The loop of `parseAuthConfig` on entries that all have a label and decode: it returns
the accumulator followed by one record per entry, in order. -/
theorem parseAuthConfigLoop_ok {M D : Type} (lib : Lib M D) :
    ∀ (list : List ObjectItem) (configs : List (AuthConfig D)),
      (∀ e ∈ list, e.Keys ≠ [] ∧
        ∃ m d, lib.DecodeObject e.Val = .ok m ∧ lib.WeakDecode m = .ok d) →
      ∃ out, parseAuthConfigLoop lib list configs = .ok (configs ++ out) ∧
        List.Forall₂ (fun (e : ObjectItem) (r : AuthConfig D) =>
          e.Keys.head?.map ObjectKey.Name = some r.Name ∧
            ∃ m, lib.DecodeObject e.Val = .ok m ∧ lib.WeakDecode m = .ok r.Data) list out := by
  intro list
  induction list with
  | nil =>
    intro configs _
    exact ⟨[], by simp [parseAuthConfigLoop], List.Forall₂.nil⟩
  | cons e rest ih =>
    intro configs h
    obtain ⟨hkeys, m, d, hm, hd⟩ := h e (List.mem_cons_self _ _)
    cases hk : e.Keys with
    | nil => exact absurd hk hkeys
    | cons key ks =>
      obtain ⟨out, hout, hrel⟩ :=
        ih (configs ++ [⟨key.Name, d⟩]) (fun e' he' => h e' (List.mem_cons_of_mem _ he'))
      refine ⟨⟨key.Name, d⟩ :: out, ?_, List.Forall₂.cons ⟨by simp [hk], m, hm, hd⟩ hrel⟩
      simp [parseAuthConfigLoop, hk, hm, hd, hout]

/-- The loop of `parseAuthRole` on entries that all have a label and decode: it returns the
accumulator followed by one record per entry, in order. -/
theorem parseAuthRoleLoop_ok {M D : Type} (lib : Lib M D) :
    ∀ (list : List ObjectItem) (roles : List (AuthRole D)),
      (∀ e ∈ list, e.Keys ≠ [] ∧
        ∃ m d, lib.DecodeObject e.Val = .ok m ∧ lib.WeakDecode m = .ok d) →
      ∃ out, parseAuthRoleLoop lib list roles = .ok (roles ++ out) ∧
        List.Forall₂ (fun (e : ObjectItem) (r : AuthRole D) =>
          e.Keys.head?.map ObjectKey.Name = some r.Name ∧
            ∃ m, lib.DecodeObject e.Val = .ok m ∧ lib.WeakDecode m = .ok r.Data) list out := by
  intro list
  induction list with
  | nil =>
    intro roles _
    exact ⟨[], by simp [parseAuthRoleLoop], List.Forall₂.nil⟩
  | cons e rest ih =>
    intro roles h
    obtain ⟨hkeys, m, d, hm, hd⟩ := h e (List.mem_cons_self _ _)
    cases hk : e.Keys with
    | nil => exact absurd hk hkeys
    | cons key ks =>
      obtain ⟨out, hout, hrel⟩ :=
        ih (roles ++ [⟨key.Name, d⟩]) (fun e' he' => h e' (List.mem_cons_of_mem _ he'))
      refine ⟨⟨key.Name, d⟩ :: out, ?_, List.Forall₂.cons ⟨by simp [hk], m, hm, hd⟩ hrel⟩
      simp [parseAuthRoleLoop, hk, hm, hd, hout]

/-- Entries with a key and a label keep a label when `Filter` has stripped the key. -/
theorem dropKey_labelled (es : List ObjectItem) {M D : Type} (lib : Lib M D)
    (h : ∀ e ∈ es, 2 ≤ e.Keys.length ∧
      ∃ m d, lib.DecodeObject e.Val = .ok m ∧ lib.WeakDecode m = .ok d) :
    ∀ e ∈ es.map dropKey, e.Keys ≠ [] ∧
      ∃ m d, lib.DecodeObject e.Val = .ok m ∧ lib.WeakDecode m = .ok d := by
  intro e he
  obtain ⟨e0, he0, rfl⟩ := List.mem_map.mp he
  obtain ⟨hlen, hdec⟩ := h e0 he0
  refine ⟨?_, hdec⟩
  intro hnil
  have : (e0.Keys.drop 1).length = 0 := by
    simpa [dropKey] using congrArg List.length hnil
  rw [List.length_drop] at this
  omega

/-! ## The properties of `parseAuthConfig` and `parseAuthRole` -/

/-- C10: on a list of entries that all have at least one label and whose bodies all decode,
`parseAuthConfig` and `parseAuthRole` return no error and a sequence as long as the input;
the record at index `i` has the first label of entry `i` as Name and the coerced decode of
the body of entry `i` as Data. -/
theorem parse_named_entries {M D : Type} (lib : Lib M D) (list : ObjectList)
    (h : ∀ e ∈ list.Items, 1 ≤ e.Keys.length ∧
      ∃ m d, lib.DecodeObject e.Val = .ok m ∧ lib.WeakDecode m = .ok d) :
    (∃ configs, parseAuthConfig lib list = .ok configs ∧
      configs.length = list.Items.length ∧
      ∀ i (hi : i < list.Items.length) (ho : i < configs.length),
        (list.Items.get ⟨i, hi⟩).Keys.head?.map ObjectKey.Name =
            some (configs.get ⟨i, ho⟩).Name ∧
          ∃ m, lib.DecodeObject (list.Items.get ⟨i, hi⟩).Val = .ok m ∧
            lib.WeakDecode m = .ok (configs.get ⟨i, ho⟩).Data) ∧
    (∃ roles, parseAuthRole lib list = .ok roles ∧
      roles.length = list.Items.length ∧
      ∀ i (hi : i < list.Items.length) (ho : i < roles.length),
        (list.Items.get ⟨i, hi⟩).Keys.head?.map ObjectKey.Name =
            some (roles.get ⟨i, ho⟩).Name ∧
          ∃ m, lib.DecodeObject (list.Items.get ⟨i, hi⟩).Val = .ok m ∧
            lib.WeakDecode m = .ok (roles.get ⟨i, ho⟩).Data) := by
  have h' : ∀ e ∈ list.Items, e.Keys ≠ [] ∧
      ∃ m d, lib.DecodeObject e.Val = .ok m ∧ lib.WeakDecode m = .ok d := by
    intro e he
    obtain ⟨hlen, hdec⟩ := h e he
    refine ⟨?_, hdec⟩
    intro hnil
    rw [hnil] at hlen
    simp at hlen
  constructor
  · obtain ⟨out, hout, hrel⟩ := parseAuthConfigLoop_ok lib list.Items [] h'
    refine ⟨out, by simpa [parseAuthConfig] using hout, hrel.length_eq.symm, ?_⟩
    intro i hi ho
    exact hrel.get hi ho
  · obtain ⟨out, hout, hrel⟩ := parseAuthRoleLoop_ok lib list.Items [] h'
    refine ⟨out, by simpa [parseAuthRole] using hout, hrel.length_eq.symm, ?_⟩
    intro i hi ho
    exact hrel.get hi ho

/-- C10, at two entries with the same label `"reader"` and different bodies
(`policies = "a"` and `policies = "b"`): two records, in input order. -/
theorem parse_named_entries_witness :
    (∃ configs, parseAuthConfig sampleLib
        ⟨[block ["reader"] [attr "policies" (.str "a") 2] 1,
          block ["reader"] [attr "policies" (.str "b") 4] 3]⟩ = .ok configs ∧
      configs.length = 2 ∧ configs.map AuthConfig.Name = ["reader", "reader"] ∧
      configs.map AuthConfig.Data = [[("policies", .str "a")], [("policies", .str "b")]]) ∧
    (∃ roles, parseAuthRole sampleLib
        ⟨[block ["reader"] [attr "policies" (.str "a") 2] 1,
          block ["reader"] [attr "policies" (.str "b") 4] 3]⟩ = .ok roles ∧
      roles.length = 2 ∧ roles.map AuthRole.Name = ["reader", "reader"] ∧
      roles.map AuthRole.Data = [[("policies", .str "a")], [("policies", .str "b")]]) := by
  have h := parse_named_entries sampleLib
    ⟨[block ["reader"] [attr "policies" (.str "a") 2] 1,
      block ["reader"] [attr "policies" (.str "b") 4] 3]⟩
    (by
      intro e he
      simp only [List.mem_cons, List.mem_singleton, List.not_mem_nil, or_false] at he
      rcases he with rfl | rfl
      · exact ⟨by decide, _, _, rfl, rfl⟩
      · exact ⟨by decide, _, _, rfl, rfl⟩)
  obtain ⟨⟨configs, hc, hclen, -⟩, ⟨roles, hr, hrlen, -⟩⟩ := h
  have hc' : parseAuthConfig sampleLib
      ⟨[block ["reader"] [attr "policies" (.str "a") 2] 1,
        block ["reader"] [attr "policies" (.str "b") 4] 3]⟩ =
      .ok [⟨"reader", [("policies", .str "a")]⟩, ⟨"reader", [("policies", .str "b")]⟩] := rfl
  have hr' : parseAuthRole sampleLib
      ⟨[block ["reader"] [attr "policies" (.str "a") 2] 1,
        block ["reader"] [attr "policies" (.str "b") 4] 3]⟩ =
      .ok [⟨"reader", [("policies", .str "a")]⟩, ⟨"reader", [("policies", .str "b")]⟩] := rfl
  rw [hc'] at hc
  rw [hr'] at hr
  cases hc
  cases hr
  exact ⟨⟨_, hc', rfl, rfl, rfl⟩, ⟨_, hr', rfl, rfl, rfl⟩⟩

/-! ## The properties of `processVaultAuths`: the lease TTLs -/

/-- C6, counterexample: in `auth "a" { type = "x"  max_lease_ttl = 10
default_lease_ttl = "1h"  default_lease_ttl = "2h" }` the block passes the schema, name and
type checks and `default_lease_ttl` occurs twice, but the error returned is the one for the
type of `max_lease_ttl`, not a once-per-mount error. -/
theorem processVaultAuths_ttl_twice_counterexample :
    AllowedKeys [attr "type" (.str "x") 2, attr "max_lease_ttl" (.int64 10 (by decide)) 3,
        attr "default_lease_ttl" (.str "1h") 4, attr "default_lease_ttl" (.str "2h") 5] ∧
      authType sampleLib
        ⟨[attr "type" (.str "x") 2, attr "max_lease_ttl" (.int64 10 (by decide)) 3,
          attr "default_lease_ttl" (.str "1h") 4, attr "default_lease_ttl" (.str "2h") 5]⟩
        production "a" = .ok "x" ∧
      (entries "default_lease_ttl"
        [attr "type" (.str "x") 2, attr "max_lease_ttl" (.int64 10 (by decide)) 3,
          attr "default_lease_ttl" (.str "1h") 4,
          attr "default_lease_ttl" (.str "2h") 5]).length = 2 ∧
      processVaultAuths sampleLib ⟨[]⟩
          ⟨[block ["a"]
            [attr "type" (.str "x") 2, attr "max_lease_ttl" (.int64 10 (by decide)) 3,
              attr "default_lease_ttl" (.str "1h") 4,
              attr "default_lease_ttl" (.str "2h") 5] 1]⟩ production =
        (.err (.Errorf "unexpected type %T for %s -> %s -> max_lease_ttl"
          [.str "production", .str "a", .int64 10 (by decide)]), ⟨[]⟩) ∧
      (GoError.Errorf "unexpected type %T for %s -> %s -> max_lease_ttl"
          [.str "production", .str "a", .int64 10 (by decide)]).kind ≠ some .DuplicateKey := by
  refine ⟨by decide, rfl, rfl, rfl, by decide⟩

/-- C6, amended: in an auth block that passes the schema, name and type checks, two or more
`max_lease_ttl` entries make `processVaultAuths` return the once-per-mount error for
`max_lease_ttl`; two or more `default_lease_ttl` entries make it return the once-per-mount
error for `default_lease_ttl` when `max_lease_ttl` is absent or occurs once with a string
literal.  In both cases nothing is added for the block. -/
theorem processVaultAuths_ttl_twice {M D : Type} (lib : Lib M D) (c c' : Config D)
    (environment : Environment) (pre post : List ObjectItem) (authAST : ObjectItem)
    (items : List ObjectItem) (label : ObjectKey) (ty : ObjectItem) (p : Pos) (s : String)
    (hval : authAST.Val = .ObjectType items) (hlabel : authAST.Keys = [label])
    (hkeys : AllowedKeys items)
    (htype : entries "type" items = [ty]) (hty : ty.Val = .LiteralType p (.str s))
    (hpre : processVaultAuths lib c ⟨pre⟩ environment = (.nil, c')) :
    (2 ≤ (entries "max_lease_ttl" items).length →
      processVaultAuths lib c ⟨pre ++ authAST :: post⟩ environment =
        (.err (.Errorf "You can only specify max_lease_ttl once per mount in %s -> %s"
          [.str environment.Name, .str label.Name]), c')) ∧
    (2 ≤ (entries "default_lease_ttl" items).length →
      (entries "max_lease_ttl" items = [] ∨
        ∃ m q t, entries "max_lease_ttl" items = [m] ∧ m.Val = .LiteralType q (.str t)) →
      processVaultAuths lib c ⟨pre ++ authAST :: post⟩ environment =
        (.err (.Errorf "You can only specify default_lease_ttl once per mount in %s -> %s"
          [.str environment.Name, .str label.Name]), c')) := by
  constructor
  · intro hmax
    apply processVaultAuths_err lib environment c c' pre post authAST _ hpre
    simp [authBlock, blockBody_object authAST items hval, schemaGuard_allowed items hkeys,
      authName_one authAST label hlabel,
      authType_string lib environment label.Name items ty p s hkeys htype hty,
      mountMaxLeaseTTL_twice lib environment label.Name items hkeys hmax, bind, Except.bind]
  · intro hdefault hmax
    apply processVaultAuths_err lib environment c c' pre post authAST _ hpre
    rcases hmax with hmax | ⟨m, q, t, hmax, hm⟩
    · simp [authBlock, blockBody_object authAST items hval, schemaGuard_allowed items hkeys,
        authName_one authAST label hlabel,
        authType_string lib environment label.Name items ty p s hkeys htype hty,
        mountMaxLeaseTTL_absent lib environment label.Name items hkeys hmax,
        mountDefaultLeaseTTL_twice lib environment label.Name items hkeys hdefault,
        bind, Except.bind]
    · simp [authBlock, blockBody_object authAST items hval, schemaGuard_allowed items hkeys,
        authName_one authAST label hlabel,
        authType_string lib environment label.Name items ty p s hkeys htype hty,
        mountMaxLeaseTTL_string lib environment label.Name items m q t hkeys hmax hm,
        mountDefaultLeaseTTL_twice lib environment label.Name items hkeys hdefault,
        bind, Except.bind]

/-- C6 amended, at `auth "a" { type = "x"  max_lease_ttl = "1h"  max_lease_ttl = "2h" }` and
at `auth "a" { type = "x"  max_lease_ttl = "1h"  default_lease_ttl = "1h"
default_lease_ttl = "2h" }`. -/
theorem processVaultAuths_ttl_twice_witness :
    processVaultAuths sampleLib ⟨[]⟩
        ⟨[] ++ block ["a"] [attr "type" (.str "x") 2, attr "max_lease_ttl" (.str "1h") 3,
          attr "max_lease_ttl" (.str "2h") 4] 1 :: []⟩ production =
      (.err (.Errorf "You can only specify max_lease_ttl once per mount in %s -> %s"
        [.str "production", .str "a"]), ⟨[]⟩) ∧
    processVaultAuths sampleLib ⟨[]⟩
        ⟨[] ++ block ["a"] [attr "type" (.str "x") 2, attr "max_lease_ttl" (.str "1h") 3,
          attr "default_lease_ttl" (.str "1h") 4,
          attr "default_lease_ttl" (.str "2h") 5] 1 :: []⟩ production =
      (.err (.Errorf "You can only specify default_lease_ttl once per mount in %s -> %s"
        [.str "production", .str "a"]), ⟨[]⟩) :=
  ⟨(processVaultAuths_ttl_twice sampleLib ⟨[]⟩ ⟨[]⟩ production [] []
      (block ["a"] [attr "type" (.str "x") 2, attr "max_lease_ttl" (.str "1h") 3,
        attr "max_lease_ttl" (.str "2h") 4] 1)
      [attr "type" (.str "x") 2, attr "max_lease_ttl" (.str "1h") 3,
        attr "max_lease_ttl" (.str "2h") 4]
      ⟨"a", atLine 1⟩ (attr "type" (.str "x") 2) (atLine 2) "x"
      rfl rfl (by decide) rfl rfl rfl).1 (by decide),
   (processVaultAuths_ttl_twice sampleLib ⟨[]⟩ ⟨[]⟩ production [] []
      (block ["a"] [attr "type" (.str "x") 2, attr "max_lease_ttl" (.str "1h") 3,
        attr "default_lease_ttl" (.str "1h") 4, attr "default_lease_ttl" (.str "2h") 5] 1)
      [attr "type" (.str "x") 2, attr "max_lease_ttl" (.str "1h") 3,
        attr "default_lease_ttl" (.str "1h") 4, attr "default_lease_ttl" (.str "2h") 5]
      ⟨"a", atLine 1⟩ (attr "type" (.str "x") 2) (atLine 2) "x"
      rfl rfl (by decide) rfl rfl rfl).2 (by decide)
      (Or.inr ⟨attr "max_lease_ttl" (.str "1h") 3, atLine 3, "1h", rfl, rfl⟩)⟩

/-- C7: in a well-formed auth block (one label, allowed keys, one `type` entry with a string
literal, each TTL absent or given once as a string literal, every `config` and `role` entry
labelled and decodable) `processVaultAuths` adds an Auth whose MaxLeaseTTL is exactly the
string of the one `max_lease_ttl` entry, or the empty string when there is none, and whose
DefaultLeaseTTL is exactly the string of the one `default_lease_ttl` entry, or the empty
string when there is none: each field is read off its own entries only. -/
theorem processVaultAuths_lease_ttls {M D : Type} (lib : Lib M D) (c : Config D)
    (environment : Environment) (authAST : ObjectItem) (items : List ObjectItem)
    (label : ObjectKey) (ty : ObjectItem) (p : Pos) (s : String)
    (hval : authAST.Val = .ObjectType items) (hlabel : authAST.Keys = [label])
    (hkeys : AllowedKeys items)
    (htype : entries "type" items = [ty]) (hty : ty.Val = .LiteralType p (.str s))
    (hmax : entries "max_lease_ttl" items = [] ∨
      ∃ m q t, entries "max_lease_ttl" items = [m] ∧ m.Val = .LiteralType q (.str t))
    (hdefault : entries "default_lease_ttl" items = [] ∨
      ∃ d q t, entries "default_lease_ttl" items = [d] ∧ d.Val = .LiteralType q (.str t))
    (hconfig : ∀ e ∈ entries "config" items, 2 ≤ e.Keys.length ∧
      ∃ m d, lib.DecodeObject e.Val = .ok m ∧ lib.WeakDecode m = .ok d)
    (hrole : ∀ e ∈ entries "role" items, 2 ≤ e.Keys.length ∧
      ∃ m d, lib.DecodeObject e.Val = .ok m ∧ lib.WeakDecode m = .ok d) :
    ∃ auth : Auth D,
      processVaultAuths lib c ⟨[authAST]⟩ environment = (.nil, ⟨c.VaultAuths ++ [auth]⟩) ∧
      (∀ m q t, entries "max_lease_ttl" items = [m] → m.Val = .LiteralType q (.str t) →
        auth.MaxLeaseTTL = t) ∧
      (entries "max_lease_ttl" items = [] → auth.MaxLeaseTTL = "") ∧
      (∀ d q t, entries "default_lease_ttl" items = [d] → d.Val = .LiteralType q (.str t) →
        auth.DefaultLeaseTTL = t) ∧
      (entries "default_lease_ttl" items = [] → auth.DefaultLeaseTTL = "") := by
  obtain ⟨configs, hconfigs, -⟩ := parseAuthConfigLoop_ok lib _ []
    (dropKey_labelled (entries "config" items) lib hconfig)
  obtain ⟨roles, hroles, -⟩ := parseAuthRoleLoop_ok lib _ []
    (dropKey_labelled (entries "role" items) lib hrole)
  rw [List.nil_append] at hconfigs hroles
  have hmaxv : ∃ maxTTL, mountMaxLeaseTTL lib ⟨items⟩ environment label.Name = .ok maxTTL ∧
      (∀ m q t, entries "max_lease_ttl" items = [m] → m.Val = .LiteralType q (.str t) →
        maxTTL = t) ∧
      (entries "max_lease_ttl" items = [] → maxTTL = "") := by
    rcases hmax with hmax | ⟨m, q, t, hmax, hm⟩
    · refine ⟨"", mountMaxLeaseTTL_absent lib environment label.Name items hkeys hmax, ?_,
        fun _ => rfl⟩
      intro m q t h
      rw [hmax] at h
      cases h
    · refine ⟨t, mountMaxLeaseTTL_string lib environment label.Name items m q t hkeys hmax hm,
        ?_, ?_⟩
      · intro m' q' t' h hm'
        rw [hmax] at h
        cases h
        rw [hm] at hm'
        cases hm'
        rfl
      · intro h
        rw [hmax] at h
        cases h
  have hdefv : ∃ defTTL,
      mountDefaultLeaseTTL lib ⟨items⟩ environment label.Name = .ok defTTL ∧
      (∀ d q t, entries "default_lease_ttl" items = [d] → d.Val = .LiteralType q (.str t) →
        defTTL = t) ∧
      (entries "default_lease_ttl" items = [] → defTTL = "") := by
    rcases hdefault with hdefault | ⟨d, q, t, hdefault, hd⟩
    · refine ⟨"", mountDefaultLeaseTTL_absent lib environment label.Name items hkeys hdefault,
        ?_, fun _ => rfl⟩
      intro d q t h
      rw [hdefault] at h
      cases h
    · refine ⟨t,
        mountDefaultLeaseTTL_string lib environment label.Name items d q t hkeys hdefault hd,
        ?_, ?_⟩
      · intro d' q' t' h hd'
        rw [hdefault] at h
        cases h
        rw [hd] at hd'
        cases hd'
        rfl
      · intro h
        rw [hdefault] at h
        cases h
  obtain ⟨maxTTL, hmaxr, hmax1, hmax0⟩ := hmaxv
  obtain ⟨defTTL, hdefr, hdef1, hdef0⟩ := hdefv
  have hb : authBlock lib environment authAST = .ok
      { Name := label.Name, Type_ := s, Environment := environment,
        DefaultLeaseTTL := defTTL, MaxLeaseTTL := maxTTL, Config := configs,
        Roles := roles } := by
    simp [authBlock, blockBody_object authAST items hval, schemaGuard_allowed items hkeys,
      authName_one authAST label hlabel,
      authType_string lib environment label.Name items ty p s hkeys htype hty,
      hmaxr, hdefr, authConfig_entries lib items hkeys, authRoles_entries lib items hkeys,
      hconfigs, hroles, bind, Except.bind, pure, Except.pure]
  refine ⟨{ Name := label.Name, Type_ := s, Environment := environment,
            DefaultLeaseTTL := defTTL, MaxLeaseTTL := maxTTL, Config := configs,
            Roles := roles },
    ?_, hmax1, hmax0, hdef1, hdef0⟩
  have h := processVaultAuths_ok lib environment c c [] [] authAST _ rfl hb
  simpa [processVaultAuths, processVaultAuthsLoop, Config.VaultAuthsAdd] using h

/-- C7, at `auth "a" { type = "x"  max_lease_ttl = "1h" }`: MaxLeaseTTL is `"1h"` and
DefaultLeaseTTL stays empty. -/
theorem processVaultAuths_lease_ttls_witness :
    ∃ auth : Auth (List (String × GoValue)),
      processVaultAuths sampleLib ⟨[]⟩
          ⟨[block ["a"] [attr "type" (.str "x") 2, attr "max_lease_ttl" (.str "1h") 3] 1]⟩
          production = (.nil, ⟨[] ++ [auth]⟩) ∧
      auth.MaxLeaseTTL = "1h" ∧ auth.DefaultLeaseTTL = "" := by
  obtain ⟨auth, h, hmax1, -, -, hdef0⟩ :=
    processVaultAuths_lease_ttls sampleLib ⟨[]⟩ production
      (block ["a"] [attr "type" (.str "x") 2, attr "max_lease_ttl" (.str "1h") 3] 1)
      [attr "type" (.str "x") 2, attr "max_lease_ttl" (.str "1h") 3]
      ⟨"a", atLine 1⟩ (attr "type" (.str "x") 2) (atLine 2) "x"
      rfl rfl (by decide) rfl rfl
      (Or.inr ⟨attr "max_lease_ttl" (.str "1h") 3, atLine 3, "1h", rfl, rfl⟩)
      (Or.inl rfl)
      (by intro e he; cases he)
      (by intro e he; cases he)
  exact ⟨auth, h, hmax1 _ _ _ rfl rfl, hdef0 rfl⟩

/-- One `max_lease_ttl` entry whose literal has no value makes the step panic in
`Token.Value()`, before the type switch is reached. -/
theorem mountMaxLeaseTTL_noValue {M D : Type} (lib : Lib M D) (environment : Environment)
    (name : String) (items : List ObjectItem) (m : ObjectItem) (p : Pos) (text : String)
    (hkeys : AllowedKeys items) (hmax : entries "max_lease_ttl" items = [m])
    (hm : m.Val = .LiteralNoValue p text) :
    mountMaxLeaseTTL lib ⟨items⟩ environment name = .error (.fault .tokenValue) := by
  simp [mountMaxLeaseTTL, filter_items lib _ (by decide : "max_lease_ttl" ∈ valid) items hkeys,
    hmax, dropKey, hm, literalValue]

/-- One `default_lease_ttl` entry whose literal has no value makes the step panic in
`Token.Value()`, before the type switch is reached. -/
theorem mountDefaultLeaseTTL_noValue {M D : Type} (lib : Lib M D) (environment : Environment)
    (name : String) (items : List ObjectItem) (d : ObjectItem) (p : Pos) (text : String)
    (hkeys : AllowedKeys items) (hdefault : entries "default_lease_ttl" items = [d])
    (hd : d.Val = .LiteralNoValue p text) :
    mountDefaultLeaseTTL lib ⟨items⟩ environment name = .error (.fault .tokenValue) := by
  simp [mountDefaultLeaseTTL,
    filter_items lib _ (by decide : "default_lease_ttl" ∈ valid) items hkeys, hdefault,
    dropKey, hd, literalValue]

/-- On `auth "a" { type = "x"  max_lease_ttl = 99999999999999999999 }` the call panics: the
number is outside the range of `int64`, so `Token.Value()` panics on line 40 and no error
value is built. -/
theorem processVaultAuths_ttl_out_of_range_panics :
    processVaultAuths sampleLib ⟨[]⟩
        ⟨[block ["a"]
          [attr "type" (.str "x") 2,
            attrNoValue "max_lease_ttl" "99999999999999999999" 3] 1]⟩
        production = (.fault .tokenValue, ⟨[]⟩) := by
  rfl

/-- C8, counterexample: in `auth "a" { type = "x"  max_lease_ttl = "1h"
max_lease_ttl = "2h"  default_lease_ttl = 10 }` the block passes the schema, name and type
checks and `default_lease_ttl` occurs exactly once with a number, but the error returned is
the once-per-mount error for `max_lease_ttl`, not a type mismatch. -/
theorem processVaultAuths_ttl_mismatch_counterexample :
    AllowedKeys [attr "type" (.str "x") 2, attr "max_lease_ttl" (.str "1h") 3,
        attr "max_lease_ttl" (.str "2h") 4, attr "default_lease_ttl" (.int64 10 (by decide)) 5] ∧
      authType sampleLib
        ⟨[attr "type" (.str "x") 2, attr "max_lease_ttl" (.str "1h") 3,
          attr "max_lease_ttl" (.str "2h") 4, attr "default_lease_ttl" (.int64 10 (by decide)) 5]⟩
        production "a" = .ok "x" ∧
      entries "default_lease_ttl"
          [attr "type" (.str "x") 2, attr "max_lease_ttl" (.str "1h") 3,
            attr "max_lease_ttl" (.str "2h") 4, attr "default_lease_ttl" (.int64 10 (by decide)) 5] =
        [attr "default_lease_ttl" (.int64 10 (by decide)) 5] ∧
      processVaultAuths sampleLib ⟨[]⟩
          ⟨[block ["a"]
            [attr "type" (.str "x") 2, attr "max_lease_ttl" (.str "1h") 3,
              attr "max_lease_ttl" (.str "2h") 4,
              attr "default_lease_ttl" (.int64 10 (by decide)) 5] 1]⟩ production =
        (.err (.Errorf "You can only specify max_lease_ttl once per mount in %s -> %s"
          [.str "production", .str "a"]), ⟨[]⟩) ∧
      (GoError.Errorf "You can only specify max_lease_ttl once per mount in %s -> %s"
          [.str "production", .str "a"]).kind ≠ some .TypeMismatch := by
  refine ⟨by decide, rfl, rfl, rfl, by decide⟩

/-- C8, amended: for a document of one auth block that passes the schema, name and type
checks, one `max_lease_ttl` entry with a literal whose value is not a string (the value
`Token.Value()` returns: a number in the range of `int64`, a finite float or a boolean)
makes `processVaultAuths` return the unexpected-type error for `max_lease_ttl`; one
`default_lease_ttl` entry with such a literal makes it return the unexpected-type error for
`default_lease_ttl` when `max_lease_ttl` is absent or occurs once with a string literal.
In both cases the collection stays as it was.  Nothing is said about a literal on which
`Token.Value()` panics. -/
theorem processVaultAuths_ttl_mismatch {M D : Type} (lib : Lib M D) (c : Config D)
    (environment : Environment) (authAST : ObjectItem) (items : List ObjectItem)
    (label : ObjectKey) (ty : ObjectItem) (p : Pos) (s : String)
    (hval : authAST.Val = .ObjectType items) (hlabel : authAST.Keys = [label])
    (hkeys : AllowedKeys items)
    (htype : entries "type" items = [ty]) (hty : ty.Val = .LiteralType p (.str s)) :
    (∀ m q v, entries "max_lease_ttl" items = [m] → m.Val = .LiteralType q v →
      (∀ t, v ≠ .str t) →
      processVaultAuths lib c ⟨[authAST]⟩ environment =
        (.err (.Errorf "unexpected type %T for %s -> %s -> max_lease_ttl"
          [.str environment.Name, .str label.Name, v]), c)) ∧
    (∀ d q v, entries "default_lease_ttl" items = [d] → d.Val = .LiteralType q v →
      (∀ t, v ≠ .str t) →
      (entries "max_lease_ttl" items = [] ∨
        ∃ m r t, entries "max_lease_ttl" items = [m] ∧ m.Val = .LiteralType r (.str t)) →
      processVaultAuths lib c ⟨[authAST]⟩ environment =
        (.err (.Errorf "unexpected type %T for %s -> %s -> default_lease_ttl"
          [.str environment.Name, .str label.Name, v]), c)) := by
  constructor
  · intro m q v hmax hm hv
    apply processVaultAuths_err lib environment c c [] [] authAST _ rfl
    simp [authBlock, blockBody_object authAST items hval, schemaGuard_allowed items hkeys,
      authName_one authAST label hlabel,
      authType_string lib environment label.Name items ty p s hkeys htype hty,
      mountMaxLeaseTTL_other lib environment label.Name items m q v hkeys hmax hm hv,
      bind, Except.bind]
  · intro d q v hdefault hd hv hmax
    apply processVaultAuths_err lib environment c c [] [] authAST _ rfl
    rcases hmax with hmax | ⟨m, r, t, hmax, hm⟩
    · simp [authBlock, blockBody_object authAST items hval, schemaGuard_allowed items hkeys,
        authName_one authAST label hlabel,
        authType_string lib environment label.Name items ty p s hkeys htype hty,
        mountMaxLeaseTTL_absent lib environment label.Name items hkeys hmax,
        mountDefaultLeaseTTL_other lib environment label.Name items d q v hkeys hdefault hd
          hv, bind, Except.bind]
    · simp [authBlock, blockBody_object authAST items hval, schemaGuard_allowed items hkeys,
        authName_one authAST label hlabel,
        authType_string lib environment label.Name items ty p s hkeys htype hty,
        mountMaxLeaseTTL_string lib environment label.Name items m r t hkeys hmax hm,
        mountDefaultLeaseTTL_other lib environment label.Name items d q v hkeys hdefault hd
          hv, bind, Except.bind]

/-- C8 amended, at `auth "a" { type = "x"  max_lease_ttl = 10 }` and at
`auth "a" { type = "x"  default_lease_ttl = true }`. -/
theorem processVaultAuths_ttl_mismatch_witness :
    processVaultAuths sampleLib ⟨[]⟩
        ⟨[block ["a"] [attr "type" (.str "x") 2, attr "max_lease_ttl" (.int64 10 (by decide)) 3] 1]⟩
        production =
      (.err (.Errorf "unexpected type %T for %s -> %s -> max_lease_ttl"
        [.str "production", .str "a", .int64 10 (by decide)]), ⟨[]⟩) ∧
    processVaultAuths sampleLib ⟨[]⟩
        ⟨[block ["a"] [attr "type" (.str "x") 2, attr "default_lease_ttl" (.bool true) 3] 1]⟩
        production =
      (.err (.Errorf "unexpected type %T for %s -> %s -> default_lease_ttl"
        [.str "production", .str "a", .bool true]), ⟨[]⟩) :=
  ⟨(processVaultAuths_ttl_mismatch sampleLib ⟨[]⟩ production
      (block ["a"] [attr "type" (.str "x") 2, attr "max_lease_ttl" (.int64 10 (by decide)) 3] 1)
      [attr "type" (.str "x") 2, attr "max_lease_ttl" (.int64 10 (by decide)) 3]
      ⟨"a", atLine 1⟩ (attr "type" (.str "x") 2) (atLine 2) "x"
      rfl rfl (by decide) rfl rfl).1
      (attr "max_lease_ttl" (.int64 10 (by decide)) 3) (atLine 3) (.int64 10 (by decide)) rfl rfl
      (by intro t h; cases h),
   (processVaultAuths_ttl_mismatch sampleLib ⟨[]⟩ production
      (block ["a"] [attr "type" (.str "x") 2, attr "default_lease_ttl" (.bool true) 3] 1)
      [attr "type" (.str "x") 2, attr "default_lease_ttl" (.bool true) 3]
      ⟨"a", atLine 1⟩ (attr "type" (.str "x") 2) (atLine 2) "x"
      rfl rfl (by decide) rfl rfl).2
      (attr "default_lease_ttl" (.bool true) 3) (atLine 3) (.bool true) rfl rfl
      (by intro t h; cases h) (Or.inl rfl)⟩

/-- C9, at the failing input `auth "approle" { type = "approle"  max_lease_ttl = 10 }`: the
operand bound to `%T` is the name of the environment, so the type the message reports is
`string`, while the offending literal, an `int64`, is bound to the second `%s`. -/
theorem processVaultAuths_mismatch_reports_string :
    processVaultAuths sampleLib ⟨[]⟩
        ⟨[block ["approle"]
          [attr "type" (.str "approle") 2, attr "max_lease_ttl" (.int64 10 (by decide)) 3] 1]⟩
        production =
      (.err (.Errorf "unexpected type %T for %s -> %s -> max_lease_ttl"
        [.str "production", .str "approle", .int64 10 (by decide)]), ⟨[]⟩) ∧
    (GoError.Errorf "unexpected type %T for %s -> %s -> max_lease_ttl"
        [.str "production", .str "approle", .int64 10 (by decide)]).operands =
      [('T', .str "production"), ('s', .str "approle"), ('s', .int64 10 (by decide))] ∧
    (GoError.Errorf "unexpected type %T for %s -> %s -> max_lease_ttl"
        [.str "production", .str "approle", .int64 10 (by decide)]).reportedType = some "string" ∧
    (GoValue.int64 10 (by decide)).typeName = "int64" := by
  refine ⟨rfl, by decide, by decide, rfl⟩

/-! ## Further lemmas on the loop body and the document loop -/

/-- The `Auth` that the loop body assembles once the name, the type, the two TTLs and the
two lists of records are known. -/
theorem authBlock_assembled {M D : Type} (lib : Lib M D) (environment : Environment)
    (authAST : ObjectItem) (items : List ObjectItem) (label : ObjectKey) (ty : ObjectItem)
    (p : Pos) (s maxTTL defTTL : String) (configs : List (AuthConfig D))
    (roles : List (AuthRole D))
    (hval : authAST.Val = .ObjectType items) (hlabel : authAST.Keys = [label])
    (hkeys : AllowedKeys items)
    (htype : entries "type" items = [ty]) (hty : ty.Val = .LiteralType p (.str s))
    (hmax : mountMaxLeaseTTL lib ⟨items⟩ environment label.Name = .ok maxTTL)
    (hdefault : mountDefaultLeaseTTL lib ⟨items⟩ environment label.Name = .ok defTTL)
    (hconfig : parseAuthConfigLoop lib ((entries "config" items).map dropKey) [] = .ok configs)
    (hrole : parseAuthRoleLoop lib ((entries "role" items).map dropKey) [] = .ok roles) :
    authBlock lib environment authAST = .ok
      { Name := label.Name, Type_ := s, Environment := environment,
        DefaultLeaseTTL := defTTL, MaxLeaseTTL := maxTTL, Config := configs,
        Roles := roles } := by
  simp [authBlock, blockBody_object authAST items hval, schemaGuard_allowed items hkeys,
    authName_one authAST label hlabel,
    authType_string lib environment label.Name items ty p s hkeys htype hty,
    hmax, hdefault, authConfig_entries lib items hkeys, authRoles_entries lib items hkeys,
    hconfig, hrole, bind, Except.bind, pure, Except.pure]

/-- The loop body assembles an `Auth` from every well-formed block; its Name is the label of
the block. -/
theorem authBlock_wellFormed {M D : Type} (lib : Lib M D) (environment : Environment)
    (authAST : ObjectItem) (h : WellFormed lib authAST) :
    ∃ auth : Auth D, authBlock lib environment authAST = .ok auth ∧
      authAST.Keys.map ObjectKey.Name = [auth.Name] ∧ auth.Environment = environment := by
  obtain ⟨items, label, ty, p, s, hval, hlabel, hkeys, htype, hty, hmax, hdefault, hconfig,
    hrole⟩ := h
  obtain ⟨configs, hconfigs, -⟩ := parseAuthConfigLoop_ok lib _ []
    (dropKey_labelled (entries "config" items) lib hconfig)
  obtain ⟨roles, hroles, -⟩ := parseAuthRoleLoop_ok lib _ []
    (dropKey_labelled (entries "role" items) lib hrole)
  rw [List.nil_append] at hconfigs hroles
  have hmaxv : ∃ maxTTL, mountMaxLeaseTTL lib ⟨items⟩ environment label.Name = .ok maxTTL := by
    rcases hmax with hmax | ⟨m, q, t, hmax, hm⟩
    · exact ⟨"", mountMaxLeaseTTL_absent lib environment label.Name items hkeys hmax⟩
    · exact ⟨t, mountMaxLeaseTTL_string lib environment label.Name items m q t hkeys hmax hm⟩
  have hdefv : ∃ defTTL,
      mountDefaultLeaseTTL lib ⟨items⟩ environment label.Name = .ok defTTL := by
    rcases hdefault with hdefault | ⟨d, q, t, hdefault, hd⟩
    · exact ⟨"", mountDefaultLeaseTTL_absent lib environment label.Name items hkeys hdefault⟩
    · exact ⟨t,
        mountDefaultLeaseTTL_string lib environment label.Name items d q t hkeys hdefault hd⟩
  obtain ⟨maxTTL, hmaxr⟩ := hmaxv
  obtain ⟨defTTL, hdefr⟩ := hdefv
  exact ⟨_, authBlock_assembled lib environment authAST items label ty p s maxTTL defTTL
    configs roles hval hlabel hkeys htype hty hmaxr hdefr hconfigs hroles,
    by simp [hlabel], rfl⟩

/-- The loop over blocks that are all assembled adds their Auths, in order. -/
theorem loop_all_ok {M D : Type} (lib : Lib M D) (environment : Environment) :
    ∀ (blocks : List ObjectItem) (auths : List (Auth D)) (c : Config D),
      List.Forall₂ (fun b a => authBlock lib environment b = .ok a) blocks auths →
      processVaultAuthsLoop lib environment blocks c = (.nil, ⟨c.VaultAuths ++ auths⟩) := by
  intro blocks auths c h
  induction h generalizing c with
  | nil => simp [processVaultAuthsLoop]
  | cons hb _ ih =>
    simp only [processVaultAuthsLoop, hb]
    rw [ih]
    simp [Config.VaultAuthsAdd]

/-- The loop stops at the first block that is not assembled: the outcome is the one of that
block and the collection holds the Auths of the blocks before it. -/
theorem loop_first_abort {M D : Type} (lib : Lib M D) (environment : Environment)
    (pre post : List ObjectItem) (blk : ObjectItem) (auths : List (Auth D)) (a : Abort)
    (c : Config D)
    (hpre : List.Forall₂ (fun b x => authBlock lib environment b = .ok x) pre auths)
    (hblk : authBlock lib environment blk = .error a) :
    processVaultAuthsLoop lib environment (pre ++ blk :: post) c =
      (a.outcome, ⟨c.VaultAuths ++ auths⟩) := by
  rw [loop_append lib environment _ pre c _ (loop_all_ok lib environment pre auths c hpre)]
  cases a <;> simp [processVaultAuthsLoop, hblk, Abort.outcome]

/-- Every run of the loop is of one of the two kinds: all blocks are assembled, or there is
a first block that is not. -/
theorem loop_cases {M D : Type} (lib : Lib M D) (environment : Environment) :
    ∀ blocks : List ObjectItem,
      (∃ auths : List (Auth D),
        List.Forall₂ (fun b x => authBlock lib environment b = .ok x) blocks auths) ∨
      (∃ pre blk post, ∃ auths : List (Auth D), ∃ a,
        blocks = pre ++ blk :: post ∧
        List.Forall₂ (fun b x => authBlock lib environment b = .ok x) pre auths ∧
        authBlock lib environment blk = .error a) := by
  intro blocks
  induction blocks with
  | nil => exact Or.inl ⟨[], List.Forall₂.nil⟩
  | cons b rest ih =>
    cases hb : authBlock lib environment b with
    | error a => exact Or.inr ⟨[], b, rest, [], a, rfl, List.Forall₂.nil, hb⟩
    | ok x =>
      rcases ih with ⟨auths, h⟩ | ⟨pre, blk, post, auths, a, hsplit, hpre, hblk⟩
      · exact Or.inl ⟨x :: auths, List.Forall₂.cons hb h⟩
      · exact Or.inr ⟨b :: pre, blk, post, x :: auths, a, by simp [hsplit],
          List.Forall₂.cons hb hpre, hblk⟩

/-- The loop of `parseAuthConfig` returns the error of the first entry whose body does not
decode, when the entries before it are labelled and decode and the entry has a label. -/
theorem parseAuthConfigLoop_decode_error {M D : Type} (lib : Lib M D) (e : String)
    (bad : ObjectItem) (epost : List ObjectItem) (hlabelled : bad.Keys ≠ [])
    (hbad : lib.DecodeObject bad.Val = .error e ∨
      ∃ m, lib.DecodeObject bad.Val = .ok m ∧ lib.WeakDecode m = .error e) :
    ∀ (epre : List ObjectItem) (configs : List (AuthConfig D)),
      (∀ x ∈ epre, x.Keys ≠ [] ∧
        ∃ m d, lib.DecodeObject x.Val = .ok m ∧ lib.WeakDecode m = .ok d) →
      parseAuthConfigLoop lib (epre ++ bad :: epost) configs =
        .error (.err (.External e)) := by
  intro epre
  induction epre with
  | nil =>
    intro configs _
    cases hk : bad.Keys with
    | nil => exact absurd hk hlabelled
    | cons key ks =>
      rcases hbad with hd | ⟨m, hd, hw⟩
      · simp [parseAuthConfigLoop, hk, hd]
      · simp [parseAuthConfigLoop, hk, hd, hw]
  | cons x rest ih =>
    intro configs h
    obtain ⟨hkeys, m, d, hm, hd⟩ := h x (List.mem_cons_self _ _)
    cases hk : x.Keys with
    | nil => exact absurd hk hkeys
    | cons key ks =>
      simp only [List.cons_append, parseAuthConfigLoop, hk, hm, hd]
      simpa using ih _ (fun y hy => h y (List.mem_cons_of_mem _ hy))

/-- The loop of `parseAuthRole` returns the error of the first entry whose body does not
decode, when the entries before it are labelled and decode and the entry has a label. -/
theorem parseAuthRoleLoop_decode_error {M D : Type} (lib : Lib M D) (e : String)
    (bad : ObjectItem) (epost : List ObjectItem) (hlabelled : bad.Keys ≠ [])
    (hbad : lib.DecodeObject bad.Val = .error e ∨
      ∃ m, lib.DecodeObject bad.Val = .ok m ∧ lib.WeakDecode m = .error e) :
    ∀ (epre : List ObjectItem) (roles : List (AuthRole D)),
      (∀ x ∈ epre, x.Keys ≠ [] ∧
        ∃ m d, lib.DecodeObject x.Val = .ok m ∧ lib.WeakDecode m = .ok d) →
      parseAuthRoleLoop lib (epre ++ bad :: epost) roles =
        .error (.err (.External e)) := by
  intro epre
  induction epre with
  | nil =>
    intro roles _
    cases hk : bad.Keys with
    | nil => exact absurd hk hlabelled
    | cons key ks =>
      rcases hbad with hd | ⟨m, hd, hw⟩
      · simp [parseAuthRoleLoop, hk, hd]
      · simp [parseAuthRoleLoop, hk, hd, hw]
  | cons x rest ih =>
    intro roles h
    obtain ⟨hkeys, m, d, hm, hd⟩ := h x (List.mem_cons_self _ _)
    cases hk : x.Keys with
    | nil => exact absurd hk hkeys
    | cons key ks =>
      simp only [List.cons_append, parseAuthRoleLoop, hk, hm, hd]
      simpa using ih _ (fun y hy => h y (List.mem_cons_of_mem _ hy))

/-- A list of at least one key is not empty. -/
theorem keys_ne_nil_of_length {keys : List ObjectKey} (h : 1 ≤ keys.length) : keys ≠ [] := by
  intro hnil
  rw [hnil] at h
  simp at h

/-! ## The properties of `parseAuthConfig`, `parseAuthRole` and the document loop -/

/-- C11, at the failing input of one entry without a label (`config { a = 1 }` after `Filter`
has stripped the key): `parseAuthConfig` and `parseAuthRole` panic with an index out of
range on the operand `Keys[0].Pos()` of the error they are about to build, and so does
`processVaultAuths` on `auth "a" { type = "x"  config { a = 1 } }`. -/
theorem parse_named_entries_no_label_panics :
    parseAuthConfig sampleLib ⟨[block [] [attr "a" (.int64 1 (by decide)) 3] 2]⟩ =
      .error (.fault .indexOutOfRange) ∧
    parseAuthRole sampleLib ⟨[block [] [attr "a" (.int64 1 (by decide)) 3] 2]⟩ =
      .error (.fault .indexOutOfRange) ∧
    processVaultAuths sampleLib ⟨[]⟩
        ⟨[block ["a"]
          [attr "type" (.str "x") 2, block ["config"] [attr "a" (.int64 1 (by decide)) 4] 3] 1]⟩
        production = (.fault .indexOutOfRange, ⟨[]⟩) := by
  refine ⟨rfl, rfl, rfl⟩

/-- C12: when the body of a `config` or `role` entry fails to decode or to coerce with error
`e` (the entries before it being labelled and decodable, and the entry labelled, so that its
decode is reached), `parseAuthConfig` and `parseAuthRole` return exactly `e` and no records,
and `processVaultAuths` on a block that is well-formed up to that entry returns the same `e`
and adds nothing for the block. -/
theorem decode_error_propagates {M D : Type} (lib : Lib M D) (e : String)
    (epre epost : List ObjectItem) (bad : ObjectItem)
    (c c' : Config D) (environment : Environment) (pre post : List ObjectItem)
    (authAST : ObjectItem) (items : List ObjectItem) (label : ObjectKey) (ty : ObjectItem)
    (p : Pos) (s : String)
    (hepre : ∀ x ∈ epre, 1 ≤ x.Keys.length ∧
      ∃ m d, lib.DecodeObject x.Val = .ok m ∧ lib.WeakDecode m = .ok d)
    (hlabelled : 1 ≤ bad.Keys.length)
    (hbad : lib.DecodeObject bad.Val = .error e ∨
      ∃ m, lib.DecodeObject bad.Val = .ok m ∧ lib.WeakDecode m = .error e)
    (hval : authAST.Val = .ObjectType items) (hlabel : authAST.Keys = [label])
    (hkeys : AllowedKeys items)
    (htype : entries "type" items = [ty]) (hty : ty.Val = .LiteralType p (.str s))
    (hmax : entries "max_lease_ttl" items = [] ∨
      ∃ m q t, entries "max_lease_ttl" items = [m] ∧ m.Val = .LiteralType q (.str t))
    (hdefault : entries "default_lease_ttl" items = [] ∨
      ∃ d q t, entries "default_lease_ttl" items = [d] ∧ d.Val = .LiteralType q (.str t))
    (hentries : (entries "config" items).map dropKey = epre ++ bad :: epost ∨
      ((∀ x ∈ entries "config" items, 2 ≤ x.Keys.length ∧
          ∃ m d, lib.DecodeObject x.Val = .ok m ∧ lib.WeakDecode m = .ok d) ∧
        (entries "role" items).map dropKey = epre ++ bad :: epost))
    (hpre : processVaultAuths lib c ⟨pre⟩ environment = (.nil, c')) :
    parseAuthConfig lib ⟨epre ++ bad :: epost⟩ = .error (.err (.External e)) ∧
    parseAuthRole lib ⟨epre ++ bad :: epost⟩ = .error (.err (.External e)) ∧
    processVaultAuths lib c ⟨pre ++ authAST :: post⟩ environment = (.err (.External e), c') := by
  have hepre' : ∀ x ∈ epre, x.Keys ≠ [] ∧
      ∃ m d, lib.DecodeObject x.Val = .ok m ∧ lib.WeakDecode m = .ok d :=
    fun x hx => ⟨keys_ne_nil_of_length (hepre x hx).1, (hepre x hx).2⟩
  have hbadKeys := keys_ne_nil_of_length hlabelled
  have hcfg := parseAuthConfigLoop_decode_error lib e bad epost hbadKeys hbad epre [] hepre'
  have hrl := parseAuthRoleLoop_decode_error lib e bad epost hbadKeys hbad epre [] hepre'
  refine ⟨hcfg, hrl, ?_⟩
  apply processVaultAuths_err lib environment c c' pre post authAST _ hpre
  have hmaxv : ∃ maxTTL, mountMaxLeaseTTL lib ⟨items⟩ environment label.Name = .ok maxTTL := by
    rcases hmax with hmax | ⟨m, q, t, hmax, hm⟩
    · exact ⟨"", mountMaxLeaseTTL_absent lib environment label.Name items hkeys hmax⟩
    · exact ⟨t, mountMaxLeaseTTL_string lib environment label.Name items m q t hkeys hmax hm⟩
  have hdefv : ∃ defTTL,
      mountDefaultLeaseTTL lib ⟨items⟩ environment label.Name = .ok defTTL := by
    rcases hdefault with hdefault | ⟨d, q, t, hdefault, hd⟩
    · exact ⟨"", mountDefaultLeaseTTL_absent lib environment label.Name items hkeys hdefault⟩
    · exact ⟨t,
        mountDefaultLeaseTTL_string lib environment label.Name items d q t hkeys hdefault hd⟩
  obtain ⟨maxTTL, hmaxr⟩ := hmaxv
  obtain ⟨defTTL, hdefr⟩ := hdefv
  rcases hentries with hconfig | ⟨hconfig, hrole⟩
  · simp [authBlock, blockBody_object authAST items hval, schemaGuard_allowed items hkeys,
      authName_one authAST label hlabel,
      authType_string lib environment label.Name items ty p s hkeys htype hty,
      hmaxr, hdefr, authConfig_entries lib items hkeys, hconfig, hcfg, bind, Except.bind]
  · obtain ⟨configs, hconfigs, -⟩ := parseAuthConfigLoop_ok lib _ []
      (dropKey_labelled (entries "config" items) lib hconfig)
    rw [List.nil_append] at hconfigs
    simp [authBlock, blockBody_object authAST items hval, schemaGuard_allowed items hkeys,
      authName_one authAST label hlabel,
      authType_string lib environment label.Name items ty p s hkeys htype hty,
      hmaxr, hdefr, authConfig_entries lib items hkeys, authRoles_entries lib items hkeys,
      hconfigs, hrole, hrl, bind, Except.bind]

/-- C12, at `auth "a" { type = "x"  role "r" { n = 1 }  role "s" = 5 }`: the body of the
second `role` entry is a number, which the decoder of the examples refuses with "not an
object"; that error is what the parsers and `processVaultAuths` return. -/
theorem decode_error_propagates_witness :
    parseAuthConfig sampleLib
        ⟨[block ["r"] [attr "n" (.int64 1 (by decide)) 4] 3] ++
          ⟨[⟨"s", atLine 5⟩], .LiteralType (atLine 5) (.int64 5 (by decide))⟩ :: []⟩ =
      .error (.err (.External "not an object")) ∧
    parseAuthRole sampleLib
        ⟨[block ["r"] [attr "n" (.int64 1 (by decide)) 4] 3] ++
          ⟨[⟨"s", atLine 5⟩], .LiteralType (atLine 5) (.int64 5 (by decide))⟩ :: []⟩ =
      .error (.err (.External "not an object")) ∧
    processVaultAuths sampleLib ⟨[]⟩
        ⟨[] ++ block ["a"]
          [attr "type" (.str "x") 2, section_ "role" "r" [attr "n" (.int64 1 (by decide)) 4] 3,
            ⟨[⟨"role", atLine 5⟩, ⟨"s", atLine 5⟩], .LiteralType (atLine 5) (.int64 5 (by decide))⟩] 1
          :: []⟩ production =
      (.err (.External "not an object"), ⟨[]⟩) :=
  decode_error_propagates sampleLib "not an object"
    [block ["r"] [attr "n" (.int64 1 (by decide)) 4] 3] []
    ⟨[⟨"s", atLine 5⟩], .LiteralType (atLine 5) (.int64 5 (by decide))⟩
    ⟨[]⟩ ⟨[]⟩ production [] []
    (block ["a"]
      [attr "type" (.str "x") 2, section_ "role" "r" [attr "n" (.int64 1 (by decide)) 4] 3,
        ⟨[⟨"role", atLine 5⟩, ⟨"s", atLine 5⟩], .LiteralType (atLine 5) (.int64 5 (by decide))⟩] 1)
    [attr "type" (.str "x") 2, section_ "role" "r" [attr "n" (.int64 1 (by decide)) 4] 3,
      ⟨[⟨"role", atLine 5⟩, ⟨"s", atLine 5⟩], .LiteralType (atLine 5) (.int64 5 (by decide))⟩]
    ⟨"a", atLine 1⟩ (attr "type" (.str "x") 2) (atLine 2) "x"
    (by
      intro x hx
      simp only [List.mem_singleton] at hx
      subst hx
      exact ⟨by decide, _, _, rfl, rfl⟩)
    (by decide) (Or.inl rfl) rfl rfl (by decide) rfl rfl (Or.inl rfl) (Or.inl rfl)
    (Or.inr ⟨fun x hx => (by cases hx), rfl⟩)
    rfl

/-- C13, counterexample: on `auth "a" { type = "x" }  auth "b" { }` and an empty collection
`processVaultAuths` returns the missing-type error of the second block, and the collection
holds the Auth of the first block: it is not the empty collection it was before the call. -/
theorem processVaultAuths_not_atomic_counterexample :
    processVaultAuths sampleLib ⟨[]⟩
        ⟨[block ["a"] [attr "type" (.str "x") 2] 1, block ["b"] [] 3]⟩ production =
      (.err (.Errorf "missing auth type in %s -> %s" [.str "production", .str "b"]),
        ⟨[{ Name := "a", Type_ := "x", Environment := production,
            DefaultLeaseTTL := "", MaxLeaseTTL := "", Config := [], Roles := [] }]⟩) ∧
    (processVaultAuths sampleLib ⟨[]⟩
        ⟨[block ["a"] [attr "type" (.str "x") 2] 1, block ["b"] [] 3]⟩
        production).2.VaultAuths ≠ [] := by
  refine ⟨rfl, ?_⟩
  intro h
  have hlen := congrArg List.length h
  revert hlen
  decide

/-- C13, amended: when `processVaultAuths` returns an error, the collection is the one
before the call followed by the Auths of the blocks that come before the failing block, in
document order; the error is the one of the failing block. -/
theorem processVaultAuths_error_keeps_earlier {M D : Type} (lib : Lib M D) (c c' : Config D)
    (list : ObjectList) (environment : Environment) (e : GoError)
    (h : processVaultAuths lib c list environment = (.err e, c')) :
    ∃ pre blk post, ∃ auths : List (Auth D),
      list.Items = pre ++ blk :: post ∧
      List.Forall₂ (fun b x => authBlock lib environment b = .ok x) pre auths ∧
      authBlock lib environment blk = .error (.err e) ∧
      c' = ⟨c.VaultAuths ++ auths⟩ := by
  rw [processVaultAuths_eq_loop] at h
  rcases loop_cases lib environment list.Items with
    ⟨auths, hall⟩ | ⟨pre, blk, post, auths, a, hsplit, hpre, hblk⟩
  · rw [loop_all_ok lib environment _ auths c hall] at h
    simp at h
  · rw [hsplit, loop_first_abort lib environment pre post blk auths a c hpre hblk] at h
    cases a with
    | err e' =>
      simp only [Abort.outcome, Prod.mk.injEq, Outcome.err.injEq] at h
      obtain ⟨he, hc⟩ := h
      subst he
      exact ⟨pre, blk, post, auths, hsplit, hpre, hblk, hc.symm⟩
    | fault p => simp [Abort.outcome] at h

/-- C13 amended, at `auth "a" { type = "x" }  auth "b" { }`: the Auth of the first block is
kept. -/
theorem processVaultAuths_error_keeps_earlier_witness :
    ∃ pre blk post, ∃ auths : List (Auth (List (String × GoValue))),
      [block ["a"] [attr "type" (.str "x") 2] 1, block ["b"] [] 3] = pre ++ blk :: post ∧
      List.Forall₂ (fun b x => authBlock sampleLib production b = .ok x) pre auths ∧
      authBlock sampleLib production blk =
        .error (.err (.Errorf "missing auth type in %s -> %s"
          [.str "production", .str "b"])) ∧
      (⟨[{ Name := "a", Type_ := "x", Environment := production,
           DefaultLeaseTTL := "", MaxLeaseTTL := "", Config := [], Roles := [] }]⟩ :
        Config (List (String × GoValue))) = ⟨[] ++ auths⟩ :=
  processVaultAuths_error_keeps_earlier sampleLib ⟨[]⟩ _
    ⟨[block ["a"] [attr "type" (.str "x") 2] 1, block ["b"] [] 3]⟩ production _ rfl

/-- C14: on a document whose auth blocks are all well-formed, `processVaultAuths` returns no
error and adds exactly one Auth per block, in document order: the Auth at index `i` is the
one assembled from block `i` and bears its label.  On the empty document it returns no
error and the collection stays as it was. -/
theorem processVaultAuths_all_wellFormed {M D : Type} (lib : Lib M D) (c : Config D)
    (list : ObjectList) (environment : Environment)
    (h : ∀ blk ∈ list.Items, WellFormed lib blk) :
    (∃ auths : List (Auth D),
      processVaultAuths lib c list environment = (.nil, ⟨c.VaultAuths ++ auths⟩) ∧
      auths.length = list.Items.length ∧
      ∀ i (hi : i < list.Items.length) (ho : i < auths.length),
        authBlock lib environment (list.Items.get ⟨i, hi⟩) = .ok (auths.get ⟨i, ho⟩) ∧
        (list.Items.get ⟨i, hi⟩).Keys.map ObjectKey.Name = [(auths.get ⟨i, ho⟩).Name]) ∧
    (list.Items = [] → processVaultAuths lib c list environment = (.nil, c)) := by
  constructor
  · have hall : ∀ blocks : List ObjectItem, (∀ blk ∈ blocks, WellFormed lib blk) →
        ∃ auths : List (Auth D),
          List.Forall₂ (fun b x => authBlock lib environment b = .ok x ∧
            b.Keys.map ObjectKey.Name = [x.Name]) blocks auths := by
      intro blocks
      induction blocks with
      | nil => intro _; exact ⟨[], List.Forall₂.nil⟩
      | cons b rest ih =>
        intro hb
        obtain ⟨auth, hauth, hname, -⟩ :=
          authBlock_wellFormed lib environment b (hb b (List.mem_cons_self _ _))
        obtain ⟨auths, hrest⟩ := ih (fun blk hblk => hb blk (List.mem_cons_of_mem _ hblk))
        exact ⟨auth :: auths, List.Forall₂.cons ⟨hauth, hname⟩ hrest⟩
    obtain ⟨auths, hrel⟩ := hall list.Items h
    refine ⟨auths, ?_, hrel.length_eq.symm, fun i hi ho => hrel.get hi ho⟩
    rw [processVaultAuths_eq_loop]
    exact loop_all_ok lib environment _ auths c (hrel.imp fun _ _ hx => hx.1)
  · intro hnil
    simp [processVaultAuths, hnil]

/-- The two blocks of the example document of C14 are well-formed. -/
theorem example_blocks_wellFormed :
    ∀ blk ∈ [block ["a"] [attr "type" (.str "x") 2] 1,
        block ["b"] [attr "type" (.str "y") 4, attr "max_lease_ttl" (.str "1h") 5] 3],
      WellFormed sampleLib blk := by
  intro blk hblk
  simp only [List.mem_cons, List.mem_singleton, List.not_mem_nil, or_false] at hblk
  rcases hblk with rfl | rfl
  · exact ⟨[attr "type" (.str "x") 2], ⟨"a", atLine 1⟩, attr "type" (.str "x") 2, atLine 2,
      "x", rfl, rfl, by decide, rfl, rfl, Or.inl rfl, Or.inl rfl,
      fun e he => (by cases he), fun e he => (by cases he)⟩
  · exact ⟨[attr "type" (.str "y") 4, attr "max_lease_ttl" (.str "1h") 5], ⟨"b", atLine 3⟩,
      attr "type" (.str "y") 4, atLine 4, "y", rfl, rfl, by decide, rfl, rfl,
      Or.inr ⟨attr "max_lease_ttl" (.str "1h") 5, atLine 5, "1h", rfl, rfl⟩, Or.inl rfl,
      fun e he => (by cases he), fun e he => (by cases he)⟩

/-- C14, at `auth "a" { type = "x" }  auth "b" { type = "y"  max_lease_ttl = "1h" }`: two
Auths are added, `a` before `b`. -/
theorem processVaultAuths_all_wellFormed_witness :
    ∃ auths : List (Auth (List (String × GoValue))),
      processVaultAuths sampleLib ⟨[]⟩
          ⟨[block ["a"] [attr "type" (.str "x") 2] 1,
            block ["b"] [attr "type" (.str "y") 4, attr "max_lease_ttl" (.str "1h") 5] 3]⟩
          production = (.nil, ⟨[] ++ auths⟩) ∧
      auths.length = 2 ∧ auths.map Auth.Name = ["a", "b"] := by
  obtain ⟨⟨auths, hrun, hlen, -⟩, -⟩ :=
    processVaultAuths_all_wellFormed sampleLib ⟨[]⟩
      ⟨[block ["a"] [attr "type" (.str "x") 2] 1,
        block ["b"] [attr "type" (.str "y") 4, attr "max_lease_ttl" (.str "1h") 5] 3]⟩
      production example_blocks_wellFormed
  have hrun' : processVaultAuths sampleLib ⟨[]⟩
      ⟨[block ["a"] [attr "type" (.str "x") 2] 1,
        block ["b"] [attr "type" (.str "y") 4, attr "max_lease_ttl" (.str "1h") 5] 3]⟩
      production =
      (.nil, ⟨[{ Name := "a", Type_ := "x", Environment := production,
                 DefaultLeaseTTL := "", MaxLeaseTTL := "", Config := [], Roles := [] },
               { Name := "b", Type_ := "y", Environment := production,
                 DefaultLeaseTTL := "", MaxLeaseTTL := "1h", Config := [], Roles := [] }]⟩) :=
    rfl
  rw [hrun'] at hrun
  simp only [List.nil_append, Prod.mk.injEq, true_and, Config.mk.injEq] at hrun
  subst hrun
  exact ⟨_, hrun', rfl, rfl⟩

/-- C15: in a document whose first block that is not assembled returns an error, that error
is what `processVaultAuths` returns and the collection holds the Auths of the blocks before
it and nothing else, whatever the blocks after it are: the result is the same as for the
document that ends with the failing block. -/
theorem processVaultAuths_fail_fast {M D : Type} (lib : Lib M D) (c : Config D)
    (environment : Environment) (pre post : List ObjectItem) (blk : ObjectItem)
    (auths : List (Auth D)) (e : GoError)
    (hpre : List.Forall₂ (fun b x => authBlock lib environment b = .ok x) pre auths)
    (hblk : authBlock lib environment blk = .error (.err e)) :
    processVaultAuths lib c ⟨pre ++ blk :: post⟩ environment =
      (.err e, ⟨c.VaultAuths ++ auths⟩) ∧
    processVaultAuths lib c ⟨pre ++ blk :: post⟩ environment =
      processVaultAuths lib c ⟨pre ++ [blk]⟩ environment := by
  rw [processVaultAuths_eq_loop, processVaultAuths_eq_loop]
  rw [loop_first_abort lib environment pre post blk auths _ c hpre hblk,
    loop_first_abort lib environment pre [] blk auths _ c hpre hblk]
  exact ⟨rfl, rfl⟩

/-- C15, at `auth "a" { type = "x" }  auth "b" { }  auth "c" { bogus = 1 }
auth "d" { type = "z" }`: the error is the missing-type error of `b`; neither the error of
`c` nor the Auth of `d` shows. -/
theorem processVaultAuths_fail_fast_witness :
    processVaultAuths sampleLib ⟨[]⟩
        ⟨[block ["a"] [attr "type" (.str "x") 2] 1] ++ block ["b"] [] 3 ::
          [block ["c"] [attr "bogus" (.int64 1 (by decide)) 5] 4,
            block ["d"] [attr "type" (.str "z") 7] 6]⟩ production =
      (.err (.Errorf "missing auth type in %s -> %s" [.str "production", .str "b"]),
        ⟨[] ++ [{ Name := "a", Type_ := "x", Environment := production,
                  DefaultLeaseTTL := "", MaxLeaseTTL := "", Config := [], Roles := [] }]⟩) ∧
    processVaultAuths sampleLib ⟨[]⟩
        ⟨[block ["a"] [attr "type" (.str "x") 2] 1] ++ block ["b"] [] 3 ::
          [block ["c"] [attr "bogus" (.int64 1 (by decide)) 5] 4,
            block ["d"] [attr "type" (.str "z") 7] 6]⟩ production =
      processVaultAuths sampleLib ⟨[]⟩
        ⟨[block ["a"] [attr "type" (.str "x") 2] 1] ++ [block ["b"] [] 3]⟩ production :=
  processVaultAuths_fail_fast sampleLib ⟨[]⟩ production
    [block ["a"] [attr "type" (.str "x") 2] 1]
    [block ["c"] [attr "bogus" (.int64 1 (by decide)) 5] 4, block ["d"] [attr "type" (.str "z") 7] 6]
    (block ["b"] [] 3) _ _
    (List.Forall₂.cons rfl List.Forall₂.nil) rfl

/-! ## The schema guard comes first -/

/-- No error of the loop of `parseAuthConfig` is the error of the schema guard. -/
theorem parseAuthConfigLoop_error_ne_unexpectedKey {M D : Type} (lib : Lib M D)
    (key : ObjectKey) :
    ∀ (list : List ObjectItem) (configs : List (AuthConfig D)),
      parseAuthConfigLoop lib list configs ≠ .error (.err (.UnexpectedKey key)) := by
  intro list
  induction list with
  | nil => intro configs h; simp [parseAuthConfigLoop] at h
  | cons x rest ih =>
    intro configs h
    cases hk : x.Keys with
    | nil => simp [parseAuthConfigLoop, hk] at h
    | cons k ks =>
      cases hd : lib.DecodeObject x.Val with
      | error msg => simp [parseAuthConfigLoop, hk, hd] at h
      | ok m =>
        cases hw : lib.WeakDecode m with
        | error msg => simp [parseAuthConfigLoop, hk, hd, hw] at h
        | ok d =>
          simp only [parseAuthConfigLoop, hk, hd, hw] at h
          exact ih _ (by simpa using h)

/-- No error of the loop of `parseAuthRole` is the error of the schema guard. -/
theorem parseAuthRoleLoop_error_ne_unexpectedKey {M D : Type} (lib : Lib M D)
    (key : ObjectKey) :
    ∀ (list : List ObjectItem) (roles : List (AuthRole D)),
      parseAuthRoleLoop lib list roles ≠ .error (.err (.UnexpectedKey key)) := by
  intro list
  induction list with
  | nil => intro roles h; simp [parseAuthRoleLoop] at h
  | cons x rest ih =>
    intro roles h
    cases hk : x.Keys with
    | nil => simp [parseAuthRoleLoop, hk] at h
    | cons k ks =>
      cases hd : lib.DecodeObject x.Val with
      | error msg => simp [parseAuthRoleLoop, hk, hd] at h
      | ok m =>
        cases hw : lib.WeakDecode m with
        | error msg => simp [parseAuthRoleLoop, hk, hd, hw] at h
        | ok d =>
          simp only [parseAuthRoleLoop, hk, hd, hw] at h
          exact ih _ (by simpa using h)

/-- No error of a step after the schema guard is the error of the schema guard. -/
theorem later_step_error_ne_unexpectedKey {M D : Type} (lib : Lib M D)
    (environment : Environment) (authAST : ObjectItem) (x : ObjectList) (name : String)
    (key : ObjectKey) :
    authName authAST ≠ .error (.err (.UnexpectedKey key)) ∧
    authType lib x environment name ≠ .error (.err (.UnexpectedKey key)) ∧
    mountMaxLeaseTTL lib x environment name ≠ .error (.err (.UnexpectedKey key)) ∧
    mountDefaultLeaseTTL lib x environment name ≠ .error (.err (.UnexpectedKey key)) ∧
    authConfig lib x ≠ .error (.err (.UnexpectedKey key)) ∧
    authRoles lib x ≠ .error (.err (.UnexpectedKey key)) := by
  refine ⟨?_, ?_, ?_, ?_, ?_, ?_⟩
  · intro h
    unfold authName at h
    split at h <;> split at h <;> simp at h
  · intro h
    unfold authType at h
    simp only at h
    split at h
    · simp at h
    · split at h
      · simp at h
      · rename_i item _ _
        cases hv : item.Val with
        | ObjectType _ => simp [hv, literalValue, bind, Except.bind] at h
        | ListType _ => simp [hv, literalValue, bind, Except.bind] at h
        | LiteralNoValue _ _ => simp [hv, literalValue, bind, Except.bind] at h
        | LiteralType _ v =>
          cases v <;> simp [hv, literalValue, assertString, bind, Except.bind] at h
  · intro h
    unfold mountMaxLeaseTTL at h
    simp only at h
    split at h
    · split at h
      · simp at h
      · rename_i item _ _
        cases hv : item.Val with
        | ObjectType _ => simp [hv, literalValue] at h
        | ListType _ => simp [hv, literalValue] at h
        | LiteralNoValue _ _ => simp [hv, literalValue] at h
        | LiteralType _ v => cases v <;> simp [hv, literalValue] at h
    · split at h <;> simp at h
  · intro h
    unfold mountDefaultLeaseTTL at h
    simp only at h
    split at h
    · split at h
      · simp at h
      · rename_i item _ _
        cases hv : item.Val with
        | ObjectType _ => simp [hv, literalValue] at h
        | ListType _ => simp [hv, literalValue] at h
        | LiteralNoValue _ _ => simp [hv, literalValue] at h
        | LiteralType _ v => cases v <;> simp [hv, literalValue] at h
    · split at h <;> simp at h
  · intro h
    unfold authConfig at h
    simp only at h
    split at h
    · exact parseAuthConfigLoop_error_ne_unexpectedKey lib key _ _ h
    · simp at h
  · intro h
    unfold authRoles at h
    simp only at h
    split at h
    · exact parseAuthRoleLoop_error_ne_unexpectedKey lib key _ _ h
    · simp at h

/-- C16: an auth block with a child key outside the allowed keys makes `processVaultAuths`
return the error of the schema guard, whatever else is wrong with the block (its labels,
its `type`, its TTLs, its `config` and `role` entries are not constrained): the guard runs
before any of the later steps, and the error returned is none of the errors those steps
give. -/
theorem processVaultAuths_guard_first {M D : Type} (lib : Lib M D) (c c' : Config D)
    (environment : Environment) (pre post : List ObjectItem) (authAST : ObjectItem)
    (items : List ObjectItem)
    (hval : authAST.Val = .ObjectType items)
    (hbad : ∃ item ∈ items, ∃ key ∈ item.Keys.head?, key.Name ∉ valid)
    (hpre : processVaultAuths lib c ⟨pre⟩ environment = (.nil, c')) :
    ∃ key, key.Name ∉ valid ∧
      authBlock lib environment authAST = .error (.err (.UnexpectedKey key)) ∧
      processVaultAuths lib c ⟨pre ++ authAST :: post⟩ environment =
        (.err (.UnexpectedKey key), c') ∧
      (GoError.UnexpectedKey key).kind = some .UnexpectedKey ∧
      ∀ name,
        authName authAST ≠ .error (.err (.UnexpectedKey key)) ∧
        authType lib ⟨items⟩ environment name ≠ .error (.err (.UnexpectedKey key)) ∧
        mountMaxLeaseTTL lib ⟨items⟩ environment name ≠ .error (.err (.UnexpectedKey key)) ∧
        mountDefaultLeaseTTL lib ⟨items⟩ environment name ≠
          .error (.err (.UnexpectedKey key)) ∧
        authConfig lib ⟨items⟩ ≠ .error (.err (.UnexpectedKey key)) ∧
        authRoles lib ⟨items⟩ ≠ .error (.err (.UnexpectedKey key)) := by
  have hnot : ¬ AllowedKeys items := by
    intro h
    obtain ⟨item, hitem, key, hkey, hout⟩ := hbad
    exact hout (h item hitem key hkey)
  obtain ⟨key, hout, -, hguard⟩ := checkHCLKeys_rejected items hnot
  have hblock : authBlock lib environment authAST = .error (.err (.UnexpectedKey key)) := by
    simp [authBlock, blockBody_object authAST items hval, schemaGuard, hguard, bind,
      Except.bind]
  exact ⟨key, hout, hblock,
    processVaultAuths_err lib environment c c' pre post authAST _ hpre hblock, rfl,
    fun name => later_step_error_ne_unexpectedKey lib environment authAST ⟨items⟩ name key⟩

/-- C16, at `auth { max_lease_ttl = 1  max_lease_ttl = 2  bogus = 1  config { } }`: no
label, no `type`, `max_lease_ttl` twice and not a string, a `config` entry without a label,
and still the error is the one of the schema guard for `bogus`. -/
theorem processVaultAuths_guard_first_witness :
    processVaultAuths sampleLib ⟨[]⟩
        ⟨[] ++ block []
          [attr "max_lease_ttl" (.int64 1 (by decide)) 2, attr "max_lease_ttl" (.int64 2 (by decide)) 3,
            attr "bogus" (.int64 1 (by decide)) 4, block ["config"] [] 5] 1 :: []⟩ production =
      (.err (.UnexpectedKey ⟨"bogus", atLine 4⟩), ⟨[]⟩) := by
  obtain ⟨key, -, hblock, hrun, -⟩ :=
    processVaultAuths_guard_first sampleLib ⟨[]⟩ ⟨[]⟩ production [] []
      (block []
        [attr "max_lease_ttl" (.int64 1 (by decide)) 2, attr "max_lease_ttl" (.int64 2 (by decide)) 3,
          attr "bogus" (.int64 1 (by decide)) 4, block ["config"] [] 5] 1)
      [attr "max_lease_ttl" (.int64 1 (by decide)) 2, attr "max_lease_ttl" (.int64 2 (by decide)) 3,
        attr "bogus" (.int64 1 (by decide)) 4, block ["config"] [] 5]
      rfl
      ⟨attr "bogus" (.int64 1 (by decide)) 4, by simp, ⟨"bogus", atLine 4⟩, rfl, by decide⟩
      rfl
  have hblock' : authBlock sampleLib production
      (block []
        [attr "max_lease_ttl" (.int64 1 (by decide)) 2, attr "max_lease_ttl" (.int64 2 (by decide)) 3,
          attr "bogus" (.int64 1 (by decide)) 4, block ["config"] [] 5] 1) =
      .error (.err (.UnexpectedKey ⟨"bogus", atLine 4⟩)) := rfl
  rw [hblock'] at hblock
  cases hblock
  exact hrun

/-! ## The records of a block, the `type` literal, `path`, and the two parsers -/

/-- C17: for a well-formed auth block the Auth that `processVaultAuths` adds has as Config
the result of `parseAuthConfig` on the `config` entries of the block when there is at least
one and the empty list otherwise, and as Roles the result of `parseAuthRole` on the `role`
entries when there is at least one and the empty list otherwise. -/
theorem processVaultAuths_records {M D : Type} (lib : Lib M D) (c : Config D)
    (environment : Environment) (authAST : ObjectItem) (items : List ObjectItem)
    (label : ObjectKey) (ty : ObjectItem) (p : Pos) (s : String)
    (hval : authAST.Val = .ObjectType items) (hlabel : authAST.Keys = [label])
    (hkeys : AllowedKeys items)
    (htype : entries "type" items = [ty]) (hty : ty.Val = .LiteralType p (.str s))
    (hmax : entries "max_lease_ttl" items = [] ∨
      ∃ m q t, entries "max_lease_ttl" items = [m] ∧ m.Val = .LiteralType q (.str t))
    (hdefault : entries "default_lease_ttl" items = [] ∨
      ∃ d q t, entries "default_lease_ttl" items = [d] ∧ d.Val = .LiteralType q (.str t))
    (hconfig : ∀ e ∈ entries "config" items, 2 ≤ e.Keys.length ∧
      ∃ m d, lib.DecodeObject e.Val = .ok m ∧ lib.WeakDecode m = .ok d)
    (hrole : ∀ e ∈ entries "role" items, 2 ≤ e.Keys.length ∧
      ∃ m d, lib.DecodeObject e.Val = .ok m ∧ lib.WeakDecode m = .ok d) :
    ∃ auth : Auth D,
      processVaultAuths lib c ⟨[authAST]⟩ environment = (.nil, ⟨c.VaultAuths ++ [auth]⟩) ∧
      auth.Name = label.Name ∧ auth.Type_ = s ∧
      (entries "config" items ≠ [] →
        parseAuthConfig lib ⟨(entries "config" items).map dropKey⟩ = .ok auth.Config) ∧
      (entries "config" items = [] → auth.Config = []) ∧
      (entries "role" items ≠ [] →
        parseAuthRole lib ⟨(entries "role" items).map dropKey⟩ = .ok auth.Roles) ∧
      (entries "role" items = [] → auth.Roles = []) := by
  obtain ⟨configs, hconfigs, -⟩ := parseAuthConfigLoop_ok lib _ []
    (dropKey_labelled (entries "config" items) lib hconfig)
  obtain ⟨roles, hroles, -⟩ := parseAuthRoleLoop_ok lib _ []
    (dropKey_labelled (entries "role" items) lib hrole)
  rw [List.nil_append] at hconfigs hroles
  have hmaxv : ∃ maxTTL, mountMaxLeaseTTL lib ⟨items⟩ environment label.Name = .ok maxTTL := by
    rcases hmax with hmax | ⟨m, q, t, hmax, hm⟩
    · exact ⟨"", mountMaxLeaseTTL_absent lib environment label.Name items hkeys hmax⟩
    · exact ⟨t, mountMaxLeaseTTL_string lib environment label.Name items m q t hkeys hmax hm⟩
  have hdefv : ∃ defTTL,
      mountDefaultLeaseTTL lib ⟨items⟩ environment label.Name = .ok defTTL := by
    rcases hdefault with hdefault | ⟨d, q, t, hdefault, hd⟩
    · exact ⟨"", mountDefaultLeaseTTL_absent lib environment label.Name items hkeys hdefault⟩
    · exact ⟨t,
        mountDefaultLeaseTTL_string lib environment label.Name items d q t hkeys hdefault hd⟩
  obtain ⟨maxTTL, hmaxr⟩ := hmaxv
  obtain ⟨defTTL, hdefr⟩ := hdefv
  have hb := authBlock_assembled lib environment authAST items label ty p s maxTTL defTTL
    configs roles hval hlabel hkeys htype hty hmaxr hdefr hconfigs hroles
  refine ⟨{ Name := label.Name, Type_ := s, Environment := environment,
            DefaultLeaseTTL := defTTL, MaxLeaseTTL := maxTTL, Config := configs,
            Roles := roles }, ?_, rfl, rfl, ?_, ?_, ?_, ?_⟩
  · have h := processVaultAuths_ok lib environment c c [] [] authAST _ rfl hb
    simpa [processVaultAuths, processVaultAuthsLoop, Config.VaultAuthsAdd] using h
  · intro _
    exact hconfigs
  · intro hnil
    rw [hnil] at hconfigs
    simpa [parseAuthConfigLoop] using hconfigs.symm
  · intro _
    exact hroles
  · intro hnil
    rw [hnil] at hroles
    simpa [parseAuthRoleLoop] using hroles.symm

/-- C17, at the example of the spec, `auth "approle" { type = "approle"
default_lease_ttl = "768h"  role "reader" { policies = "read-only" } }`: one Auth with Name
and Type `approle`, DefaultLeaseTTL `768h`, empty MaxLeaseTTL, no Config, and the one role
`reader` with the data `policies = "read-only"`. -/
theorem processVaultAuths_records_witness :
    processVaultAuths sampleLib ⟨[]⟩
        ⟨[block ["approle"]
          [attr "type" (.str "approle") 2, attr "default_lease_ttl" (.str "768h") 3,
            section_ "role" "reader" [attr "policies" (.str "read-only") 5] 4] 1]⟩
        production =
      (.nil, ⟨[{ Name := "approle", Type_ := "approle", Environment := production,
                 DefaultLeaseTTL := "768h", MaxLeaseTTL := "", Config := [],
                 Roles := [⟨"reader", [("policies", .str "read-only")]⟩] }]⟩) ∧
    ∃ auth : Auth (List (String × GoValue)),
      parseAuthRole sampleLib
        ⟨[block ["reader"] [attr "policies" (.str "read-only") 5] 4]⟩ = .ok auth.Roles ∧
      auth.Config = [] :=
  ⟨rfl,
    (processVaultAuths_records sampleLib ⟨[]⟩ production
      (block ["approle"]
        [attr "type" (.str "approle") 2, attr "default_lease_ttl" (.str "768h") 3,
          section_ "role" "reader" [attr "policies" (.str "read-only") 5] 4] 1)
      [attr "type" (.str "approle") 2, attr "default_lease_ttl" (.str "768h") 3,
        section_ "role" "reader" [attr "policies" (.str "read-only") 5] 4]
      ⟨"approle", atLine 1⟩ (attr "type" (.str "approle") 2) (atLine 2) "approle"
      rfl rfl (by decide) rfl rfl (Or.inl rfl)
      (Or.inr ⟨attr "default_lease_ttl" (.str "768h") 3, atLine 3, "768h", rfl, rfl⟩)
      (fun e he => (by cases he))
      (fun e he => by
        have he' : e = section_ "role" "reader" [attr "policies" (.str "read-only") 5] 4 := by
          simpa [entries, keyName, attr, section_] using he
        subst he'
        exact ⟨by decide, _, _, rfl, rfl⟩)).elim
      fun auth h =>
        ⟨auth, h.2.2.2.2.2.1 (List.ne_nil_of_length_pos (by decide)), h.2.2.2.2.1 rfl⟩⟩

/-- C18, at the failing input `auth "a" { type = 10 }`: the call panics on the type
assertion `.(string)` of line 35; a non-string `type` literal is not turned into an error
the way a non-string TTL literal is. -/
theorem processVaultAuths_type_number_panics :
    processVaultAuths sampleLib ⟨[]⟩ ⟨[block ["a"] [attr "type" (.int64 10 (by decide)) 2] 1]⟩
      production = (.fault .typeAssertion, ⟨[]⟩) ∧
    processVaultAuths sampleLib ⟨[]⟩
        ⟨[block ["a"] [attr "type" (.str "x") 2, attr "max_lease_ttl" (.int64 10 (by decide)) 3] 1]⟩
        production =
      (.err (.Errorf "unexpected type %T for %s -> %s -> max_lease_ttl"
        [.str "production", .str "a", .int64 10 (by decide)]), ⟨[]⟩) := by
  exact ⟨rfl, rfl⟩

/-- The schema guard gives the same answer with and without the `path` entries. -/
theorem checkHCLKeys_withoutPath :
    ∀ items : List ObjectItem,
      checkHCLKeys (withoutPath items) valid = checkHCLKeys items valid := by
  intro items
  induction items with
  | nil => rfl
  | cons item rest ih =>
    rcases item with ⟨keys, val⟩
    cases keys with
    | nil =>
      simp only [withoutPath, keyName, List.filter_cons] at ih ⊢
      simpa [checkHCLKeys] using ih
    | cons key ks =>
      by_cases hpath : key.Name = "path"
      · have hvalid : key.Name ∈ valid := by rw [hpath]; decide
        simp only [withoutPath, keyName, List.filter_cons] at ih ⊢
        simpa [checkHCLKeys, hpath, hvalid] using ih
      · simp only [withoutPath, keyName, List.filter_cons] at ih ⊢
        by_cases hvalid : key.Name ∈ valid
        · simpa [checkHCLKeys, hpath, hvalid] using ih
        · simp [checkHCLKeys, hpath, hvalid]

/-- The entries of a key other than `path` are the same with and without the `path`
entries. -/
theorem entries_withoutPath (k : String) (hk : k ≠ "path") (items : List ObjectItem) :
    entries k (withoutPath items) = entries k items := by
  simp only [entries, withoutPath, List.filter_filter]
  apply List.filter_congr
  intro item _
  by_cases h : keyName item = some k
  · simp [h, hk]
  · simp [h]

/-- A body without its `path` entries has allowed keys when the body has. -/
theorem allowedKeys_withoutPath (items : List ObjectItem) (h : AllowedKeys items) :
    AllowedKeys (withoutPath items) :=
  fun item hitem key hkey => h item (List.mem_of_mem_filter hitem) key hkey

/-- The loop body gives the same result on a block and on the block without its `path`
entries. -/
theorem authBlock_withoutPath {M D : Type} (lib : Lib M D) (environment : Environment)
    (keys : List ObjectKey) (items : List ObjectItem) :
    authBlock lib environment ⟨keys, .ObjectType (withoutPath items)⟩ =
      authBlock lib environment ⟨keys, .ObjectType items⟩ := by
  by_cases hkeys : AllowedKeys items
  · have hkeys' := allowedKeys_withoutPath items hkeys
    have hf : ∀ k, k ∈ valid → k ≠ "path" →
        ObjectList.Filter lib ⟨withoutPath items⟩ [k] = ObjectList.Filter lib ⟨items⟩ [k] := by
      intro k hk hne
      have h1 := filter_items lib k hk (withoutPath items) hkeys'
      have h2 := filter_items lib k hk items hkeys
      rw [entries_withoutPath k hne items] at h1
      cases hl : ObjectList.Filter lib ⟨withoutPath items⟩ [k]
      cases hr : ObjectList.Filter lib ⟨items⟩ [k]
      rw [hl] at h1
      rw [hr] at h2
      simp only at h1 h2
      rw [h1, h2]
    have hname : authName (⟨keys, .ObjectType (withoutPath items)⟩ : ObjectItem) =
        authName ⟨keys, .ObjectType items⟩ := rfl
    simp only [authBlock, blockBody, schemaGuard, checkHCLKeys_withoutPath, hname, authType,
      mountMaxLeaseTTL, mountDefaultLeaseTTL, authConfig, authRoles, bind, Except.bind,
      hf "type" (by decide) (by decide), hf "max_lease_ttl" (by decide) (by decide),
      hf "default_lease_ttl" (by decide) (by decide), hf "config" (by decide) (by decide),
      hf "role" (by decide) (by decide)]
  · obtain ⟨key, -, -, hguard⟩ := checkHCLKeys_rejected items hkeys
    simp [authBlock, blockBody, schemaGuard, checkHCLKeys_withoutPath, hguard, bind,
      Except.bind]

/-- The loop gives the same result on two documents that differ in one block, when the loop
body gives the same result on the two blocks. -/
theorem loop_congr_block {M D : Type} (lib : Lib M D) (environment : Environment)
    (post : List ObjectItem) (b₁ b₂ : ObjectItem)
    (h : authBlock lib environment b₁ = authBlock lib environment b₂) :
    ∀ (pre : List ObjectItem) (c : Config D),
      processVaultAuthsLoop lib environment (pre ++ b₁ :: post) c =
        processVaultAuthsLoop lib environment (pre ++ b₂ :: post) c := by
  intro pre
  induction pre with
  | nil =>
    intro c
    simp only [List.nil_append, processVaultAuthsLoop, h]
  | cons b rest ih =>
    intro c
    simp only [List.cons_append, processVaultAuthsLoop]
    cases authBlock lib environment b with
    | error a => cases a <;> rfl
    | ok auth => exact ih _

/-- C19: two auth blocks with the same labels whose bodies are the same once the `path`
entries are left out (they differ only in the number and the values of their `path`
entries) get the same result from the loop body, the same Auth or the same error or panic,
and so `processVaultAuths` gives the same result on two documents that differ only in
these two blocks. -/
theorem processVaultAuths_path_ignored {M D : Type} (lib : Lib M D) (c : Config D)
    (environment : Environment) (pre post : List ObjectItem) (b₁ b₂ : ObjectItem)
    (items₁ items₂ : List ObjectItem)
    (hlabels : b₁.Keys = b₂.Keys)
    (hval₁ : b₁.Val = .ObjectType items₁) (hval₂ : b₂.Val = .ObjectType items₂)
    (hsame : withoutPath items₁ = withoutPath items₂) :
    authBlock lib environment b₁ = authBlock lib environment b₂ ∧
    processVaultAuths lib c ⟨pre ++ b₁ :: post⟩ environment =
      processVaultAuths lib c ⟨pre ++ b₂ :: post⟩ environment := by
  have hblock : authBlock lib environment b₁ = authBlock lib environment b₂ := by
    rcases b₁ with ⟨keys₁, val₁⟩
    rcases b₂ with ⟨keys₂, val₂⟩
    simp only at hlabels hval₁ hval₂
    subst hlabels hval₁ hval₂
    rw [← authBlock_withoutPath lib environment keys₁ items₁,
      ← authBlock_withoutPath lib environment keys₁ items₂, hsame]
  refine ⟨hblock, ?_⟩
  rw [processVaultAuths_eq_loop, processVaultAuths_eq_loop]
  exact loop_congr_block lib environment post b₁ b₂ hblock pre c

/-- C19, at `auth "a" { type = "x" }` and `auth "a" { path = "p"  type = "x"  path = 2 }`:
both documents add the same Auth. -/
theorem processVaultAuths_path_ignored_witness :
    authBlock sampleLib production (block ["a"] [attr "type" (.str "x") 2] 1) =
      authBlock sampleLib production
        (block ["a"]
          [attr "path" (.str "p") 2, attr "type" (.str "x") 2, attr "path" (.int64 2 (by decide)) 3] 1) ∧
    processVaultAuths sampleLib ⟨[]⟩
        ⟨[] ++ block ["a"] [attr "type" (.str "x") 2] 1 :: []⟩ production =
      processVaultAuths sampleLib ⟨[]⟩
        ⟨[] ++ block ["a"]
          [attr "path" (.str "p") 2, attr "type" (.str "x") 2, attr "path" (.int64 2 (by decide)) 3] 1
          :: []⟩ production :=
  processVaultAuths_path_ignored sampleLib ⟨[]⟩ production [] []
    (block ["a"] [attr "type" (.str "x") 2] 1)
    (block ["a"]
      [attr "path" (.str "p") 2, attr "type" (.str "x") 2, attr "path" (.int64 2 (by decide)) 3] 1)
    [attr "type" (.str "x") 2]
    [attr "path" (.str "p") 2, attr "type" (.str "x") 2, attr "path" (.int64 2 (by decide)) 3]
    rfl rfl rfl rfl

/-- The loop of `parseAuthRole` does on the roles what the loop of `parseAuthConfig` does on
the configs. -/
theorem parseAuthRoleLoop_eq_map {M D : Type} (lib : Lib M D) :
    ∀ (list : List ObjectItem) (configs : List (AuthConfig D)),
      parseAuthRoleLoop lib list (configs.map AuthConfig.asRole) =
        Except.map (List.map AuthConfig.asRole) (parseAuthConfigLoop lib list configs) := by
  intro list
  induction list with
  | nil => intro configs; rfl
  | cons x rest ih =>
    intro configs
    cases hk : x.Keys with
    | nil => simp [parseAuthRoleLoop, parseAuthConfigLoop, hk, Except.map]
    | cons key ks =>
      cases hd : lib.DecodeObject x.Val with
      | error msg => simp [parseAuthRoleLoop, parseAuthConfigLoop, hk, hd, Except.map]
      | ok m =>
        cases hw : lib.WeakDecode m with
        | error msg => simp [parseAuthRoleLoop, parseAuthConfigLoop, hk, hd, hw, Except.map]
        | ok d =>
          have h := ih (configs ++ [⟨key.Name, d⟩])
          simp only [List.map_append, List.map_cons, List.map_nil, AuthConfig.asRole] at h
          simp only [parseAuthRoleLoop, parseAuthConfigLoop, hk, hd, hw, AuthConfig.asRole]
          simpa using h

/-- C20: `parseAuthRole` is `parseAuthConfig` up to the record type.  On every list one of
them ends without a result exactly when the other does, with the same error or panic, and
when they return, the two sequences have the same length, the same Names and the same
Data, index by index. -/
theorem parsers_agree {M D : Type} (lib : Lib M D) (list : ObjectList) :
    parseAuthRole lib list =
      Except.map (List.map AuthConfig.asRole) (parseAuthConfig lib list) ∧
    (∀ a, parseAuthConfig lib list = .error a ↔ parseAuthRole lib list = .error a) ∧
    (∀ configs roles, parseAuthConfig lib list = .ok configs →
      parseAuthRole lib list = .ok roles →
      roles.length = configs.length ∧
        roles.map AuthRole.Name = configs.map AuthConfig.Name ∧
        roles.map AuthRole.Data = configs.map AuthConfig.Data) ∧
    ((∃ configs, parseAuthConfig lib list = .ok configs) ↔
      ∃ roles, parseAuthRole lib list = .ok roles) := by
  have h : parseAuthRole lib list =
      Except.map (List.map AuthConfig.asRole) (parseAuthConfig lib list) := by
    simpa [parseAuthRole, parseAuthConfig] using parseAuthRoleLoop_eq_map lib list.Items []
  refine ⟨h, ?_, ?_, ?_⟩
  · intro a
    rw [h]
    cases parseAuthConfig lib list with
    | error a' => simp [Except.map]
    | ok configs => simp [Except.map]
  · intro configs roles hc hr
    rw [h, hc] at hr
    simp only [Except.map, Except.ok.injEq] at hr
    subst hr
    refine ⟨by simp, ?_, ?_⟩
    · simp [List.map_map, Function.comp_def, AuthConfig.asRole]
    · simp [List.map_map, Function.comp_def, AuthConfig.asRole]
  · rw [h]
    cases parseAuthConfig lib list with
    | error a' => simp [Except.map]
    | ok configs => simp [Except.map]

end HashiHelper
